import Mathlib

/-!
Verification of the geocoding, point-spreading and isochrone core of the
yerevan-real-estate repository.

Part 1 of this file contains shallow embeddings of the relevant source
functions; part 2 contains the theorems.  Coordinates handled by purely
arithmetical code (geocode.py, main.py, the graph builder and Dijkstra of
isochrones.py) are modelled as exact rationals; code that computes with
transcendental functions (haversine distances, jitter trigonometry in
spread.py / isochrones.py) is modelled over the reals.

External effects are modelled as oracle parameters:
  - the geocoding service (Nominatim) is a function from (query, viewbox,
    bounded) to an optional coordinate pair;
  - the persisted district bounding-box cache is a function from district
    name to an optional box;
  - street normalization (a pure regex function in geocode.py) is passed as
    an opaque parameter, since no claim below depends on its behaviour;
  - the SHA-256 based hash of spread.py ( stableU32) is passed as an opaque
    function from strings to naturals, since no claim depends on the hash
    values themselves.
-/

namespace Str

/-- Whitespace as stripped by Python str.strip (ASCII portion, which covers
all strings occurring in this code base). -/
def isSpaceChar (c : Char) : Bool := c = ' ' ∨ c = '\t' ∨ c = '\n' ∨ c = '\r'

/-- Python str.strip, as a kernel-reducible function on the character
list. -/
def strip (s : String) : String :=
  ⟨((s.data.dropWhile isSpaceChar).reverse.dropWhile isSpaceChar).reverse⟩

/-- ASCII lower casing of one character (Python str.lower on the ASCII
strings this code base uses). -/
def lowerChar (c : Char) : Char :=
  if 'A' ≤ c ∧ c ≤ 'Z' then Char.ofNat (c.toNat + 32) else c

/-- Python str.lower, as a kernel-reducible function. -/
def lower (s : String) : String := ⟨s.data.map lowerChar⟩

/-- Does the second list occur as a leading segment of the first? -/
def startsWithChars : List Char → List Char → Bool
  | _, [] => true
  | [], _ :: _ => false
  | a :: as, b :: bs => a = b && startsWithChars as bs

/-- Substring containment on character lists (the Python `in` operator on
strings). -/
def containsChars : List Char → List Char → Bool
  | [], pat => pat.isEmpty
  | s@(_ :: rest), pat => startsWithChars s pat || containsChars rest pat

/-- Python `needle in haystack` for strings. -/
def containsStr (haystack needle : String) : Bool :=
  containsChars haystack.data needle.data

end Str

namespace Geo

/-- Exact-rational coordinate pair (lat, lng). -/
abbrev Coord := ℚ × ℚ

/-- Bounding box (south, north, west, east), as in geocode.py. -/
structure BBox where
  south : ℚ
  north : ℚ
  west : ℚ
  east : ℚ
deriving DecidableEq, Repr

/-- BBOX_BUFFER = 0.003 from geocode.py. -/
def BBOX_BUFFER : ℚ := 3 / 1000

/-- DISTRICT_ALIASES from geocode.py. -/
def districtAliases : String → Option String
  | "Center" => some "Kentron"
  | "Nor Norq" => some "Nor-Nork"
  | "Nor-Norq" => some "Nor-Nork"
  | "Norq Marash" => some "Nork-Marash"
  | "Achapnyak" => some "Ajapnyak"
  | "Vahagni district" => some "Vahagni"
  | _ => none

/-- DISTRICT_ALIASES.get(d, d) from geocode.py. -/
def aliasDistrict (d : String) : String := (districtAliases d).getD d

/-- get_district_bbox from geocode.py: strips the name, returns none for the
empty name, and otherwise consults the (memoized, persisted) cache/fetch
pipeline, modelled by the oracle `raw`. -/
def getDistrictBbox (raw : String → Option BBox) (s : String) : Option BBox :=
  if Str.strip s = "" then none else raw (Str.strip s)

/-- expand_bbox from geocode.py. -/
def expandBbox (b : BBox) : BBox :=
  ⟨b.south - BBOX_BUFFER, b.north + BBOX_BUFFER, b.west - BBOX_BUFFER, b.east + BBOX_BUFFER⟩

/-- in_district_bbox from geocode.py.  Returns none when the point is
missing, the aliased district name strips to empty, or no box is known;
otherwise whether the point is inside the buffered box. -/
def inDistrictBbox (raw : String → Option BBox) (lat lng : Option ℚ) (district : String) :
    Option Bool :=
  match lat, lng with
  | some la, some ln =>
    let osm := Str.strip (aliasDistrict district)
    if osm = "" then none
    else
      match getDistrictBbox raw osm with
      | none => none
      | some b =>
        let e := expandBbox b
        some (decide (e.south ≤ la ∧ la ≤ e.north ∧ e.west ≤ ln ∧ ln ≤ e.east))
  | _, _ => none

/-- One call to geocode_address: the query string, the viewbox passed (if
any) and whether the viewbox was enforced (bounded=1). -/
structure GeoCall where
  query : String
  viewbox : Option BBox
  bounded : Bool
deriving DecidableEq, Repr

/-- The geocoding service, as an oracle: geocode_address(query, viewbox,
bounded) in geocode.py. -/
abbrev GeoOracle := String → Option BBox → Bool → Option Coord

/-- try_geocode from geocode.py, instrumented with the list of geocoding
calls it issues.  First an unbounded (viewbox-biased) query; if the result
lands outside the district box (check is `some false`), one bounded retry,
accepted only when its own check is not `some false`. -/
def tryGeocode (geo : GeoOracle) (raw : String → Option BBox) (query district : String)
    (viewbox : Option BBox) : Option Coord × List GeoCall :=
  let c1 : GeoCall := ⟨query, viewbox, false⟩
  match geo query viewbox false with
  | none => (none, [c1])
  | some r =>
    if inDistrictBbox raw (some r.1) (some r.2) district ≠ some false then (some r, [c1])
    else
      match viewbox with
      | none => (none, [c1])
      | some vb =>
        let c2 : GeoCall := ⟨query, some vb, true⟩
        match geo query (some vb) true with
        | none => (none, [c1, c2])
        | some r2 =>
          if inDistrictBbox raw (some r2.1) (some r2.2) district ≠ some false then
            (some r2, [c1, c2])
          else (none, [c1, c2])

/-- A listing, restricted to the fields read or written by geocode.py and
main.py.  `precision` models the "geocode_precision" key. -/
structure Listing where
  id : Int
  street : String
  district : String
  parsedAddressNumber : Option String
  lat : Option ℚ
  lng : Option ℚ
  precision : Option String
deriving DecidableEq, Repr

/-- An entry of the override map (data/geocode_overrides.json). -/
structure OverrideEntry where
  lat : Option ℚ
  lng : Option ℚ
  street : Option String
  note : Option String
deriving DecidableEq, Repr

/-- Truthiness of an optional string as Python sees it: None and the empty
string are falsy. -/
def truthyStr : Option String → Bool
  | none => false
  | some s => !(s == "")

/-- geocode_listing from geocode.py, instrumented with the geocoding calls
issued.  Mirrors, in order: the source_approx early return, the override
early return, then the four query tiers (full address, street + district,
street only, district centroid). -/
def geocodeListing (geo : GeoOracle) (raw : String → Option BBox)
    (normStreet : String → String) (l : Listing)
    (overrides : String → Option OverrideEntry) : Listing × List GeoCall :=
  if l.precision = some "source_approx" ∧ l.lat ≠ none ∧ l.lng ≠ none then (l, [])
  else
    match overrides (toString l.id) with
    | some e => ({ l with lat := e.lat, lng := e.lng, precision := some "override" }, [])
    | none =>
      let osmDistrict := aliasDistrict l.district
      let street := normStreet l.street
      let vbox :=
        (if osmDistrict ≠ "" then getDistrictBbox raw osmDistrict else none).map expandBbox
      let numOk : Bool := match l.parsedAddressNumber with
        | some n => !(n == "")
        | none => false
      let t1 : Option Coord × List GeoCall :=
        if numOk ∧ street ≠ "" then
          tryGeocode geo raw
            ((l.parsedAddressNumber.getD "") ++ " " ++ street ++ ", " ++ osmDistrict ++
              ", Yerevan, Armenia") l.district vbox
        else (none, [])
      match t1 with
      | (some r, cs) =>
        ({ l with lat := some r.1, lng := some r.2, precision := some "address" }, cs)
      | (none, cs1) =>
        let t2 : Option Coord × List GeoCall :=
          if street ≠ "" then
            tryGeocode geo raw (street ++ ", " ++ osmDistrict ++ ", Yerevan, Armenia")
              l.district vbox
          else (none, [])
        match t2 with
        | (some r, cs) =>
          ({ l with lat := some r.1, lng := some r.2, precision := some "street" }, cs1 ++ cs)
        | (none, cs2) =>
          let t3 : Option Coord × List GeoCall :=
            if street ≠ "" then
              tryGeocode geo raw (street ++ ", Yerevan, Armenia") l.district vbox
            else (none, [])
          match t3 with
          | (some r, cs) =>
            ({ l with lat := some r.1, lng := some r.2, precision := some "street" },
              cs1 ++ cs2 ++ cs)
          | (none, cs3) =>
            let t4 : Option Coord × List GeoCall :=
              if osmDistrict ≠ "" then
                (geo (osmDistrict ++ ", Yerevan, Armenia") vbox false,
                  [⟨osmDistrict ++ ", Yerevan, Armenia", vbox, false⟩])
              else (none, [])
            match t4 with
            | (some r, cs) =>
              ({ l with lat := some r.1, lng := some r.2, precision := some "district" },
                cs1 ++ cs2 ++ cs3 ++ cs)
            | (none, cs4) =>
              ({ l with lat := none, lng := none, precision := some "failed" },
                cs1 ++ cs2 ++ cs3 ++ cs4)

/-- The override entry recorded by run_geocoder for a failed listing. -/
def needsManualEntry (street : String) : OverrideEntry :=
  ⟨none, none, some street, some "needs manual geocoding"⟩

/-- Python truthiness of the lat value used by run_geocoder when collecting
failures: None and 0.0 are falsy. -/
def latFalsy : Option ℚ → Bool
  | none => true
  | some q => q == 0

/-- One step of the new_overrides dictionary construction in run_geocoder:
a failed listing whose id is not already in the override map contributes a
needs-manual entry (a later duplicate id overwrites an earlier one, as in a
Python dict). -/
def newOvStep (overrides : String → Option OverrideEntry)
    (acc : String → Option OverrideEntry) (l' : Listing) : String → Option OverrideEntry :=
  if overrides (toString l'.id) = none then
    fun k => if k = toString l'.id then some (needsManualEntry l'.street) else acc k
  else acc

/-- The new_overrides dictionary built by run_geocoder. -/
def newOverridesOf (overrides : String → Option OverrideEntry) (failed : List Listing) :
    String → Option OverrideEntry :=
  failed.foldl (newOvStep overrides) (fun _ => none)

/-- run_geocoder from geocode.py (the EU-delegation lookup and logging are
dropped; they do not affect listings or the override map).  Listings with a
non-null lat are skipped; the rest are geocoded; failed listings (falsy lat
afterwards) whose id is absent from the override map are recorded with a
needs-manual-geocoding marker; the persisted map is the merge with the new
entries winning (they only hold fresh keys). -/
def runGeocoder (geo : GeoOracle) (raw : String → Option BBox)
    (normStreet : String → String) (overrides : String → Option OverrideEntry)
    (listings : List Listing) : List Listing × (String → Option OverrideEntry) :=
  let pairs := listings.map
    (fun l => (l, if l.lat = none then (geocodeListing geo raw normStreet l overrides).1 else l))
  let outs := pairs.map Prod.snd
  let failed := (pairs.filter (fun p => p.1.lat = none ∧ latFalsy p.2.lat)).map Prod.snd
  let newOv := newOverridesOf overrides failed
  let merged : String → Option OverrideEntry := fun k =>
    match newOv k with
    | some e => some e
    | none => overrides k
  (outs, merged)

/-! Concrete instances used by counterexamples and witnesses. -/

/-- A geocoding oracle for which every query fails. -/
def noGeo : GeoOracle := fun _ _ _ => none

/-- A bounding-box oracle that knows no district. -/
def noRaw : String → Option BBox := fun _ => none

/-- Identity street normalization, used where the normalization does not
matter. -/
def idNorm : String → String := fun s => s

/-- A listing carrying source-provided approximate coordinates. -/
def srcApproxListing : Listing :=
  ⟨1, "Tolstoy Street", "Kentron", none, some 1, some 2, some "source_approx"⟩

/-- An override map with a non-null entry for id 1. -/
def ovFull : String → Option OverrideEntry :=
  fun k => if k = "1" then some ⟨some 3, some 4, none, none⟩ else none

/-- An override map with a needs-manual (null) entry for id 1. -/
def ovMarker : String → Option OverrideEntry :=
  fun k => if k = "1" then some ⟨none, none, some "Tolstoy Street", some "needs manual geocoding"⟩
    else none

/-- A not-yet-geocoded listing with id 1. -/
def pendingListing : Listing :=
  ⟨1, "Tolstoy Street", "Kentron", none, none, none, none⟩

/-- A geocoding oracle whose unbounded answer is (10, 10) and whose bounded
answer is (1/2, 1/2). -/
def c2geo : GeoOracle := fun _ vb b =>
  if b then some (1/2, 1/2) else if vb.isSome then some (10, 10) else none

/-- A bounding-box oracle that answers the unit box for every district. -/
def c2raw : String → Option BBox := fun _ => some ⟨0, 1, 0, 1⟩

end Geo

namespace Regen

/-- The precisions protected from the re-geocoding reset
(_reset_bad_geocodes_for_regen in main.py). -/
def protectedPrecisions : List String := ["source_map", "source_approx", "override", "address"]

/-- Treatment of one listing by _reset_bad_geocodes_for_regen in main.py:
protected precisions are untouched; district and district_jitter precision
is always cleared; otherwise, listings with both coordinates and a
non-empty district whose coordinates fail the district bounding-box check
are cleared. -/
def resetOne (raw : String → Option Geo.BBox) (l : Geo.Listing) : Geo.Listing :=
  let prec := Str.strip (l.precision.getD "")
  if prec ∈ protectedPrecisions then l
  else if prec = "district" ∨ prec = "district_jitter" then
    if l.lat ≠ none ∨ l.lng ≠ none ∨ Geo.truthyStr l.precision then
      { l with lat := none, lng := none, precision := none }
    else l
  else
    if l.lat = none ∨ l.lng = none ∨ l.district = "" then l
    else if Geo.inDistrictBbox raw l.lat l.lng l.district = some false then
      { l with lat := none, lng := none, precision := none }
    else l

/-- _reset_bad_geocodes_for_regen applied to the whole batch (each listing
is mutated independently; the returned count is dropped). -/
def resetAll (raw : String → Option Geo.BBox) (listings : List Geo.Listing) :
    List Geo.Listing :=
  listings.map (resetOne raw)

/-- A concrete district-precision listing for the C6 witness. -/
def witnessDistrictListing : Geo.Listing :=
  ⟨5, "Baghramyan Ave", "Arabkir", none, some 1, some 2, some "district"⟩

end Regen

namespace Iso

/-!
Embedding of dijkstra_times from isochrones.py.  Nodes are an arbitrary
type with decidable equality and a linear order (the Python code uses
rounded (lat, lng) float tuples, compared lexicographically inside the
heap); travel times are an arbitrary linearly ordered additive commutative
monoid (the Python code uses floats; the exact-number instance is ℚ).  The
priority queue is modelled as the multiset of its entries together with the
minimum-extraction the heap provides; a ghost trace additionally records
every entry ever pushed, so that the never-enqueue-beyond-budget claim can
be stated.  The while loop is modelled with explicit fuel; a run that
returns `some` corresponds to a terminating run of the Python loop.
-/

/-- State of the dijkstra_times loop: tentative distances, the priority
queue content, and the ghost trace of pushed entries. -/
structure DState (W : Type) (Node : Type) where
  dist : Node → Option W
  pq : List (W × Node)
  trace : List (W × Node)

/-- The strict lexicographic order heapq uses on (time, node) tuples. -/
def entryLt {W Node : Type} [LinearOrder W] [LinearOrder Node] (a b : W × Node) : Prop :=
  a.1 < b.1 ∨ (a.1 = b.1 ∧ a.2 < b.2)

instance entryLtDecidable {W Node : Type} [LinearOrder W] [LinearOrder Node]
    (a b : W × Node) : Decidable (entryLt a b) := by
  unfold entryLt
  infer_instance

/-- The minimal entry of the heap contents (what heappop returns). -/
def minEntry {W Node : Type} [LinearOrder W] [LinearOrder Node] (e : W × Node)
    (rest : List (W × Node)) : W × Node :=
  rest.foldl (fun m x => if entryLt x m then x else m) e

/-- nt < dist.get(v, infinity): a missing entry behaves as infinity. -/
def improves {W : Type} [LinearOrder W] (nt : W) : Option W → Bool
  | none => true
  | some d => decide (nt < d)

/-- One relaxation of the popped entry (time t) along one adjacency pair:
skip if the new time exceeds the budget, otherwise update the tentative
distance and push when it improves. -/
def rstep {W Node : Type} [LinearOrder W] [Add W] [DecidableEq Node] (B t : W)
    (st : DState W Node) (p : Node × W) : DState W Node :=
  let nt := t + p.2
  if B < nt then st
  else if improves nt (st.dist p.1) then
    ⟨fun v => if v = p.1 then some nt else st.dist v, (nt, p.1) :: st.pq,
      (nt, p.1) :: st.trace⟩
  else st

/-- The inner for-loop of dijkstra_times over the adjacency list of the
popped node. -/
def relax {W Node : Type} [LinearOrder W] [Add W] [DecidableEq Node] (B t : W)
    (nbrs : List (Node × W)) (s : DState W Node) : DState W Node :=
  nbrs.foldl (rstep B t) s

/-- The while loop of dijkstra_times, with fuel.  Pops the heap minimum;
stale entries (key different from the current tentative distance) are
skipped; entries beyond the budget are skipped; otherwise the node is
relaxed. -/
def dijkstraAux {W Node : Type} [LinearOrder W] [Add W] [DecidableEq Node]
    [LinearOrder Node] (adj : Node → List (Node × W)) (B : W) :
    ℕ → DState W Node → Option (DState W Node)
  | 0, _ => none
  | fuel + 1, s =>
    match s.pq with
    | [] => some s
    | e :: rest =>
      let m := minEntry e rest
      let s' : DState W Node := ⟨s.dist, (e :: rest).erase m, s.trace⟩
      if s.dist m.2 ≠ some m.1 then dijkstraAux adj B fuel s'
      else if B < m.1 then dijkstraAux adj B fuel s'
      else dijkstraAux adj B fuel (relax B m.1 (adj m.2) s')

/-- The initial state of dijkstra_times: dist = (source : 0), pq = ((0,
source)). -/
def dijkstraInit {W Node : Type} [Zero W] [DecidableEq Node] (source : Node) :
    DState W Node :=
  ⟨fun v => if v = source then some 0 else none, [(0, source)], [(0, source)]⟩

/-- dijkstra_times from isochrones.py: the returned dictionary, paired with
the ghost trace of pushed entries. -/
def dijkstraTimes {W Node : Type} [LinearOrder W] [Add W] [Zero W] [DecidableEq Node]
    [LinearOrder Node] (adj : Node → List (Node × W)) (source : Node) (B : W)
    (fuel : ℕ) : Option ((Node → Option W) × List (W × Node)) :=
  (dijkstraAux adj B fuel (dijkstraInit source)).map fun s => (s.dist, s.trace)

/-- Travel times realized by walks of the adjacency structure from the
source (the lengths of paths in the graph). -/
inductive IsPathLen {W Node : Type} [Add W] [Zero W] (adj : Node → List (Node × W))
    (source : Node) : Node → W → Prop
  | base : IsPathLen adj source source 0
  | step {u v : Node} {t w : W} (h : IsPathLen adj source u t) (he : (v, w) ∈ adj u) :
      IsPathLen adj source v (t + w)

/-- The loop invariant: distance values and queue keys are path lengths
within the budget, queue entries dominate the current tentative distance of
their node, pushed entries respect the budget, and every settled value is
either still pending in the queue or already fully relaxed. -/
def DInv {W Node : Type} [LinearOrder W] [Add W] [Zero W]
    (adj : Node → List (Node × W)) (source : Node) (B : W) (s : DState W Node) : Prop :=
  (∀ v d, s.dist v = some d → IsPathLen adj source v d ∧ d ≤ B) ∧
  (∀ e ∈ s.pq, IsPathLen adj source e.2 e.1 ∧ e.1 ≤ B) ∧
  (∀ e ∈ s.pq, ∃ d, s.dist e.2 = some d ∧ d ≤ e.1) ∧
  (∀ e ∈ s.trace, e.1 ≤ B) ∧
  (∀ v ev, s.dist v = some ev → ((ev, v) ∈ s.pq ∨
    ∀ p ∈ adj v, ev + p.2 ≤ B → ∃ d, s.dist p.1 = some d ∧ d ≤ ev + p.2))

/-- A two-node walk graph for the C7 witness: an edge of weight 2 from the
source node false to the node true. -/
def c7adj : Bool → List (Bool × ℕ) := fun b => if b then [] else [(true, 2)]

end Iso

namespace Spread

/-- Degrees to radians (math.radians). -/
noncomputable def radians (d : ℝ) : ℝ := d * Real.pi / 180

/-- _haversine_m from spread.py (isochrones.py contains a verbatim copy of
the same function): great-circle distance in meters, earth radius
6371000. -/
noncomputable def haversineM (lat1 lon1 lat2 lon2 : ℝ) : ℝ :=
  let p1 := radians lat1
  let p2 := radians lat2
  let dp := p2 - p1
  let dl := radians (lon2 - lon1)
  let a := Real.sin (dp / 2) ^ 2 + Real.cos p1 * Real.cos p2 * Real.sin (dl / 2) ^ 2
  2 * 6371000 * Real.arcsin (Real.sqrt a)

/-- _polyline_length_m from spread.py: sum of haversine lengths of
consecutive segments; fewer than two vertices give length 0. -/
noncomputable def polyLineLengthM : List (ℝ × ℝ) → ℝ
  | a :: b :: rest => haversineM a.1 a.2 b.1 b.2 + polyLineLengthM (b :: rest)
  | _ => 0

/-- StreetGeometry from spread.py: one or more disconnected polylines. -/
structure StreetGeometry where
  lines : List (List (ℝ × ℝ))

/-- The total_length_m property of StreetGeometry. -/
noncomputable def totalLengthM (g : StreetGeometry) : ℝ :=
  (g.lines.map polyLineLengthM).sum

/-- The segment walk of point_at_distance (the for-loop): skip zero-length
segments, interpolate inside the segment containing the remaining distance,
and return the last vertex on overshoot. -/
noncomputable def pointAtGo : List (ℝ × ℝ) → ℝ → ℝ × ℝ
  | a :: b :: rest, remaining =>
    let seg := haversineM a.1 a.2 b.1 b.2
    if seg ≤ 0 then pointAtGo (b :: rest) remaining
    else if remaining ≤ seg then
      let t := remaining / seg
      (a.1 + (b.1 - a.1) * t, a.2 + (b.2 - a.2) * t)
    else pointAtGo (b :: rest) (remaining - seg)
  | l, _ => l.getLastD (0, 0)

/-- point_at_distance from interpolate_points_along_geometry in
spread.py. -/
noncomputable def pointAtDistance (line : List (ℝ × ℝ)) (distM : ℝ) : ℝ × ℝ :=
  if distM ≤ 0 then line.headD (0, 0) else pointAtGo line distM

/-- The cumulative table of (line index, running length) built by
interpolate_points_along_geometry. -/
noncomputable def cumTableGo : ℕ → ℝ → List ℝ → List (ℕ × ℝ)
  | _, _, [] => []
  | i, running, ln :: rest => (i, running + ln) :: cumTableGo (i + 1) (running + ln) rest

/-- The scan for the first cumulative entry at or beyond the target (the
inner for-loop over cum); without a break the chosen index stays 0 and
prev_c is the last cumulative value, as in the Python code. -/
noncomputable def chooseLineGo (target : ℝ) : List (ℕ × ℝ) → ℝ → ℕ × ℝ
  | [], prevC => (0, prevC)
  | ic :: rest, _prevC =>
    if target ≤ ic.2 then (ic.1, _prevC) else chooseLineGo target rest ic.2

/-- The line choice of interpolate_points_along_geometry, starting with
prev_c = 0. -/
noncomputable def chooseLine (cum : List (ℕ × ℝ)) (target : ℝ) : ℕ × ℝ :=
  chooseLineGo target cum 0

/-- interpolate_points_along_geometry from spread.py: place point i at
fractional arc position (i + 0.5) / n of the combined length. -/
noncomputable def interpolatePointsAlongGeometry (geom : StreetGeometry) (n : ℕ) :
    List (ℝ × ℝ) :=
  if n = 0 then []
  else
    let lengths := geom.lines.map fun l => max (polyLineLengthM l) 0
    let total := lengths.sum
    if total ≤ 0 then []
    else
      let cum := cumTableGo 0 0 lengths
      (List.range n).map fun i : ℕ =>
        let target := total * (((i : ℝ) + 1 / 2) / (n : ℝ))
        let ip := chooseLine cum target
        pointAtDistance (geom.lines.getD ip.1 []) (target - ip.2)

/-- deterministic_jitter from spread.py, with the SHA-256 derived
_stable_u32 passed as an oracle (no claim depends on the hash values). -/
noncomputable def deterministicJitter (stableU32 : String → ℕ) (center : ℝ × ℝ)
    (listingId : ℤ) (radiusM : ℝ) : ℝ × ℝ :=
  let lat := center.1
  let lon := center.2
  let u := stableU32 (toString listingId)
  let angle := ((u % 3600 : ℕ) : ℝ) / 3600 * 2 * Real.pi
  let u2 := stableU32 (toString listingId ++ ":r")
  let r := radiusM * Real.sqrt (((u2 % 10000 : ℕ) : ℝ) / 10000)
  let dlat := r * Real.cos angle / 111111
  let denom := 111111 * max (Real.cos (radians lat)) (1 / 1000000)
  let dlon := r * Real.sin angle / denom
  (lat + dlat, lon + dlon)

/-- The local equirectangular metric implicit in the jitter offset
conversion: meters north-south, and meters east-west scaled by the cosine
of the center latitude. -/
noncomputable def localDistanceM (c p : ℝ × ℝ) : ℝ :=
  Real.sqrt (((p.1 - c.1) * 111111) ^ 2 +
    ((p.2 - c.2) * (111111 * Real.cos (radians c.1))) ^ 2)

/-- Specification-side definition for C4: the point at arc length s along
the combined geometry, consuming whole polylines while s exceeds their
length. -/
noncomputable def arcPoint : List (List (ℝ × ℝ)) → ℝ → ℝ × ℝ
  | [], _ => (0, 0)
  | line :: rest, s =>
    if s ≤ polyLineLengthM line then pointAtDistance line s
    else arcPoint rest (s - polyLineLengthM line)

/-- The degenerate self-revisiting polyline of the C4 counterexample: it
returns to its start vertex exactly half way along its length. -/
noncomputable def geomCE : StreetGeometry :=
  ⟨[[(0, 0), (1 / 2, 0), (0, 0), (1, 0)]]⟩

end Spread

namespace Iso

/-- Round-half-to-even on a rational, the tie behaviour of the Python
round builtin used by the norm closure in build_graph_from_overpass. -/
def rnd (q : ℚ) : ℤ :=
  let f := ⌊q⌋
  if q - f < 1 / 2 then f
  else if 1 / 2 < q - f then f + 1
  else if Even f then f else f + 1

/-- The coordinate normalisation of build_graph_from_overpass: round to
six decimal places. -/
def round6 (q : ℚ) : ℚ := (rnd (q * 1000000) : ℚ) / 1000000

/-- WALK_SPEED_MPS from isochrones.py (1.35 meters per second). -/
noncomputable def WALK_SPEED_MPS : ℝ := 27 / 20

/-- An Overpass element: its type tag and its way geometry as (lat, lon)
pairs; a missing geometry is the empty list, as in the Python `or []`. -/
structure OElement where
  typ : String
  geometry : List (ℚ × ℚ)

/-- The normalised vertex list of a way. -/
def wayPts (e : OElement) : List (ℚ × ℚ) :=
  e.geometry.map fun p => (round6 p.1, round6 p.2)

/-- The directed edge insertions of the inner segment loop of
build_graph_from_overpass: each pair of consecutive distinct normalised
vertices inserts both directions with the same haversine walking time. -/
noncomputable def segEdges : List (ℚ × ℚ) → List ((ℚ × ℚ) × (ℚ × ℚ) × ℝ)
  | a :: b :: rest =>
    (if a = b then []
     else
       let secs := Spread.haversineM (a.1 : ℝ) (a.2 : ℝ) (b.1 : ℝ) (b.2 : ℝ) / WALK_SPEED_MPS
       [(a, b, secs), (b, a, secs)]) ++ segEdges (b :: rest)
  | _ => []

/-- All directed edge insertions of build_graph_from_overpass: elements
that are not ways, and ways with fewer than two vertices, are skipped. -/
noncomputable def buildGraphEdges : List OElement → List ((ℚ × ℚ) × (ℚ × ℚ) × ℝ)
  | [] => []
  | e :: rest =>
    (if e.typ = "way" then
       if 2 ≤ e.geometry.length then segEdges (wayPts e) else []
     else []) ++ buildGraphEdges rest

/-- A one-way Overpass response whose way joins two distinct points on the
north-pole circle of latitude: they stay distinct after rounding yet are
zero haversine distance apart. -/
def poleData : List OElement := [⟨"way", [(90, 0), (90, 1)]⟩]

/-- A one-way Overpass response with an ordinary non-degenerate edge. -/
def goodData : List OElement := [⟨"way", [(40, 44), (40, 45)]⟩]

end Iso

namespace Spread

/-- A listing as seen by run_spread: id, street label, optional
coordinates and optional geocode_precision; absent string fields are
modelled by the empty string via the Python `or ""`. -/
structure SListing where
  id : ℤ
  street : String
  lat : Option ℝ
  lng : Option ℝ
  precision : Option String

/-- The default listing used for out-of-range list reads. -/
def dummy : SListing := ⟨0, "", none, none, none⟩

/-- The lowered precision string `(l.get("geocode_precision") or "").lower()`. -/
def precStr (l : SListing) : String := Str.lower (l.precision.getD "")

/-- The stripped street label `(l.get("street") or "").strip()`. -/
def streetKey (l : SListing) : String := Str.strip l.street

/-- Membership test for the street-precision set
{"street", "street_jitter", "street_spread"}. -/
def inStreetSetB (p : String) : Bool :=
  decide (p = "street") || decide (p = "street_jitter") || decide (p = "street_spread")

/-- _is_area_like from spread.py: the lowered street label contains
"district". -/
def isAreaLike (s : String) : Bool := Str.containsStr (Str.lower s) "district"

/-- The by_street membership predicate of run_spread, as a predicate on
positions of the listing list: coordinates present, stripped street label
equal to the group key, precision in the street set. -/
def streetPredB (L : List SListing) (s : String) (j : ℕ) : Bool :=
  let l := L.getD j dummy
  !l.lat.isNone && !l.lng.isNone && decide (streetKey l = s) && inStreetSetB (precStr l)

/-- The street group of key s: positions in listing order. -/
def streetGroup (L : List SListing) (s : String) : List ℕ :=
  (List.range L.length).filter (streetPredB L s)

/-- The coord_groups_d membership predicate of run_spread: district
precision and exactly the given coordinate key. -/
noncomputable def districtPredB (L : List SListing) (la ln : Option ℝ) (j : ℕ) : Bool :=
  let l := L.getD j dummy
  !l.lat.isNone && !l.lng.isNone && decide (precStr l = "district") &&
    @decide (l.lat = la) (Classical.propDecidable _) &&
    @decide (l.lng = ln) (Classical.propDecidable _)

/-- The district coordinate group of a coordinate key. -/
noncomputable def districtGroup (L : List SListing) (la ln : Option ℝ) : List ℕ :=
  (List.range L.length).filter (districtPredB L la ln)

/-- The integer id used as sort key, read at a position. -/
def idKey (L : List SListing) (j : ℕ) : ℤ := (L.getD j dummy).id

/-- Stable insertion for the id sort: a new element goes after strictly
smaller keys and before strictly larger or equal-valued later keys,
matching the stability of the Python sorted builtin. -/
def insertById (key : ℕ → ℤ) (x : ℕ) : List ℕ → List ℕ
  | [] => [x]
  | h :: t => if key h < key x then h :: insertById key x t else x :: h :: t

/-- Stable sort of group positions by listing id, as in
sorted(items, key=lambda x: int(x["id"])). -/
def sortById (key : ℕ → ℤ) : List ℕ → List ℕ
  | [] => []
  | h :: t => insertById key h (sortById key t)

/-- The ref_center of a street group: the mean of member coordinates. -/
noncomputable def refCenter (L : List SListing) (grp : List ℕ) : ℝ × ℝ :=
  (((grp.map fun j => (L.getD j dummy).lat.getD 0).sum) / grp.length,
   ((grp.map fun j => (L.getD j dummy).lng.getD 0).sum) / grp.length)

/-- A jitter update: move the listing to the deterministic jitter of the
center and tag it with the given precision. -/
noncomputable def jitterUpd (hash : String → ℕ) (c : ℝ × ℝ) (l : SListing) (r : ℝ)
    (pr : String) : SListing :=
  let p := deterministicJitter hash c l.id r
  { l with lat := some p.1, lng := some p.2, precision := some pr }

/-- The body of the per-street loop of run_spread for one listing at
position i of group key s: area-like streets jitter 300m around the first
member, streets without geometry jitter 80m around the mean, streets with
geometry spread the members along it in id order when the interpolated
point count matches. -/
noncomputable def streetBranch (geomOf : String → ℝ × ℝ → Option StreetGeometry)
    (hash : String → ℕ) (L : List SListing) (i : ℕ) (l : SListing) (s : String) :
    SListing :=
  let grp := streetGroup L s
  if 2 ≤ grp.length then
    if isAreaLike s then
      jitterUpd hash ((L.getD (grp.headD 0) dummy).lat.getD 0,
        (L.getD (grp.headD 0) dummy).lng.getD 0) l 300 "district_jitter"
    else
      let refc := refCenter L grp
      match geomOf s refc with
      | none => jitterUpd hash refc l 80 "street_jitter"
      | some g =>
        let pts := interpolatePointsAlongGeometry g grp.length
        if pts.length = grp.length then
          let sorted := sortById (idKey L) grp
          let p := pts.getD (sorted.indexOf i) (0, 0)
          { l with lat := some p.1, lng := some p.2, precision := some "street_spread" }
        else l
  else l

/-- The body of the district-stack loop of run_spread for one listing:
stacks of two or more identical coordinates jitter 400m around the shared
coordinate (the first group member has exactly the key coordinate). -/
noncomputable def districtBranch (hash : String → ℕ) (L : List SListing) (l : SListing)
    (la ln : ℝ) : SListing :=
  if 2 ≤ (districtGroup L l.lat l.lng).length then
    jitterUpd hash (la, ln) l 400 "district_jitter"
  else l

/-- The final state of the listing at position i after run_spread: groups
are derived from the input state, as in the Python code where grouping
precedes all mutations and the groups are pairwise disjoint. -/
noncomputable def spreadValue (geomOf : String → ℝ × ℝ → Option StreetGeometry)
    (hash : String → ℕ) (L : List SListing) (i : ℕ) : SListing :=
  let l := L.getD i dummy
  match l.lat, l.lng with
  | some la, some ln =>
    if streetKey l ≠ "" ∧ inStreetSetB (precStr l) = true then
      streetBranch geomOf hash L i l (streetKey l)
    else if precStr l = "district" then
      districtBranch hash L l la ln
    else l
  | _, _ => l

/-- run_spread from spread.py, denotationally: the mutated listing list,
with the raw street-geometry lookup passed as an oracle. -/
noncomputable def runSpread (geomOf : String → ℝ × ℝ → Option StreetGeometry)
    (hash : String → ℕ) (L : List SListing) : List SListing :=
  (List.range L.length).map (spreadValue geomOf hash L)

/-- The concrete two-listing area-like street input used to instantiate
the idempotence theorem. -/
noncomputable def wListings : List SListing :=
  [⟨1, "Vahagni district", some 40, some 44, some "street"⟩,
   ⟨2, "Vahagni district", some 41, some 45, some "street"⟩]

end Spread

/-! ## Theorems -/

/-- C1 counterexample: a listing whose geocode_precision is source_approx
with non-null coordinates is returned unchanged by geocode_listing even
though the override map holds a non-null entry for its id, so its lat (1)
differs from the override lat (3) and its precision is not "override". -/
theorem c1_counterexample :
    Geo.ovFull (toString Geo.srcApproxListing.id) = some ⟨some 3, some 4, none, none⟩ ∧
    (Geo.geocodeListing Geo.noGeo Geo.noRaw Geo.idNorm Geo.srcApproxListing Geo.ovFull).1
      = Geo.srcApproxListing ∧
    Geo.srcApproxListing.lat = some 1 ∧ (1 : ℚ) ≠ 3 ∧
    Geo.srcApproxListing.precision ≠ some "override" := by
  refine ⟨rfl, rfl, rfl, by norm_num, by decide⟩

/-- C1 (amended): for every listing that does not short-circuit as a
source_approx listing with non-null coordinates, if the override map has an
entry for its id with non-null lat and lng, geocode_listing returns the
listing with exactly the override coordinates and precision "override",
issuing no geocoding call, regardless of the street and district fields. -/
theorem c1_amended (geo : Geo.GeoOracle) (raw : String → Option Geo.BBox)
    (norm : String → String) (l : Geo.Listing)
    (ov : String → Option Geo.OverrideEntry) (e : Geo.OverrideEntry) (a b : ℚ)
    (hsrc : ¬(l.precision = some "source_approx" ∧ l.lat ≠ none ∧ l.lng ≠ none))
    (hov : ov (toString l.id) = some e) (hlat : e.lat = some a) (hlng : e.lng = some b) :
    Geo.geocodeListing geo raw norm l ov =
      ({ l with lat := some a, lng := some b, precision := some "override" }, []) := by
  unfold Geo.geocodeListing
  rw [if_neg hsrc, hov]
  simp [hlat, hlng]

/-- C1 witness: the amended theorem applied to a concrete pending listing
and the concrete override map with a non-null entry. -/
theorem c1_witness :
    Geo.geocodeListing Geo.noGeo Geo.noRaw Geo.idNorm Geo.pendingListing Geo.ovFull =
      ({ Geo.pendingListing with lat := some 3, lng := some 4, precision := some "override" },
        []) :=
  c1_amended Geo.noGeo Geo.noRaw Geo.idNorm Geo.pendingListing Geo.ovFull
    ⟨some 3, some 4, none, none⟩ 3 4 (by decide) rfl rfl rfl

/-- C9 counterexample: a source_approx listing with non-null coordinates is
returned unchanged by geocode_listing even though the override map holds a
null (needs-manual) entry for its id, so neither are its coordinates set to
null nor is its precision set to "override". -/
theorem c9_counterexample :
    Geo.ovMarker (toString Geo.srcApproxListing.id) =
      some ⟨none, none, some "Tolstoy Street", some "needs manual geocoding"⟩ ∧
    (Geo.geocodeListing Geo.noGeo Geo.noRaw Geo.idNorm Geo.srcApproxListing Geo.ovMarker).1
      = Geo.srcApproxListing ∧
    Geo.srcApproxListing.lat ≠ none ∧
    Geo.srcApproxListing.precision ≠ some "override" := by
  refine ⟨rfl, rfl, by decide, by decide⟩

/-- C9 (amended): for every listing that does not short-circuit as a
source_approx listing with non-null coordinates, if the override map has an
entry for its id with null lat and lng (the needs-manual marker),
geocode_listing sets lat and lng to null, sets precision to "override" (not
"failed"), and issues no geocoding call; in particular a failed listing
with a pending marker (null lat) is never re-attempted by the automated
tiers on later runs. -/
theorem c9_amended (geo : Geo.GeoOracle) (raw : String → Option Geo.BBox)
    (norm : String → String) (l : Geo.Listing)
    (ov : String → Option Geo.OverrideEntry) (e : Geo.OverrideEntry)
    (hsrc : ¬(l.precision = some "source_approx" ∧ l.lat ≠ none ∧ l.lng ≠ none))
    (hov : ov (toString l.id) = some e) (hlat : e.lat = none) (hlng : e.lng = none) :
    Geo.geocodeListing geo raw norm l ov =
      ({ l with lat := none, lng := none, precision := some "override" }, []) := by
  unfold Geo.geocodeListing
  rw [if_neg hsrc, hov]
  simp [hlat, hlng]

/-- C9 witness: the amended theorem applied to a concrete failed listing
(null lat) and the concrete override map with a needs-manual marker. -/
theorem c9_witness :
    Geo.geocodeListing Geo.noGeo Geo.noRaw Geo.idNorm Geo.pendingListing Geo.ovMarker =
      ({ Geo.pendingListing with lat := none, lng := none, precision := some "override" },
        []) :=
  c9_amended Geo.noGeo Geo.noRaw Geo.idNorm Geo.pendingListing Geo.ovMarker
    ⟨none, none, some "Tolstoy Street", some "needs manual geocoding"⟩ (by decide) rfl rfl rfl

/-- C2: behaviour of try_geocode in tiers 2 to 4.  Under the caller
consistency condition that an outside verdict implies a viewbox was passed
(in geocode_listing both are derived from the same district bounding box):
(1) if the first, viewbox-biased call returns a candidate whose district
box check is not outside (inside or unknown), that candidate is accepted
and the only call issued is the unbounded one (no retry);
(2) if the check says outside, exactly one retry is issued with the box
enforced as a hard filter (bounded), and the result is the retry candidate
when its own check is not outside, and nothing otherwise (so the next tier
will be tried). -/
theorem c2_try_geocode (geo : Geo.GeoOracle) (raw : String → Option Geo.BBox)
    (q district : String) (viewbox : Option Geo.BBox)
    (hb : ∀ la ln : ℚ, Geo.inDistrictBbox raw (some la) (some ln) district = some false →
      viewbox ≠ none) :
    (∀ r : Geo.Coord, geo q viewbox false = some r →
      Geo.inDistrictBbox raw (some r.1) (some r.2) district ≠ some false →
      Geo.tryGeocode geo raw q district viewbox = (some r, [⟨q, viewbox, false⟩])) ∧
    (∀ r : Geo.Coord, geo q viewbox false = some r →
      Geo.inDistrictBbox raw (some r.1) (some r.2) district = some false →
      ∃ vb : Geo.BBox, viewbox = some vb ∧
        (Geo.tryGeocode geo raw q district viewbox).2 =
          [⟨q, some vb, false⟩, ⟨q, some vb, true⟩] ∧
        (Geo.tryGeocode geo raw q district viewbox).1 =
          (match geo q (some vb) true with
            | none => none
            | some r2 =>
              if Geo.inDistrictBbox raw (some r2.1) (some r2.2) district ≠ some false then
                some r2
              else none)) := by
  constructor
  · intro r hr hok
    simp only [Geo.tryGeocode, hr]
    rw [if_pos hok]
  · intro r hr hbad
    have hvb := hb r.1 r.2 hbad
    obtain ⟨vb, hv⟩ : ∃ vb, viewbox = some vb := by
      cases h : viewbox with
      | none => exact absurd h hvb
      | some vb => exact ⟨vb, rfl⟩
    refine ⟨vb, hv, ?_, ?_⟩ <;>
    · subst hv
      simp only [Geo.tryGeocode, hr]
      rw [if_neg (by simp [hbad])]
      cases h2 : geo q (some vb) true with
      | none => simp
      | some r2 =>
        by_cases hok2 : Geo.inDistrictBbox raw (some r2.1) (some r2.2) district ≠ some false
        · simp only [if_pos hok2]
        · simp only [if_neg hok2]

/-- C2 witness: a concrete oracle whose unbounded answer lands outside the
known district box and whose bounded answer lands inside; the theorem
applied there, with the consistency hypothesis discharged, shows the
bounded retry result is returned. -/
theorem c2_witness :
    (Geo.tryGeocode Geo.c2geo Geo.c2raw "Q, Yerevan, Armenia" "Kentron"
      (some (Geo.expandBbox ⟨0, 1, 0, 1⟩))).1 = some (1/2, 1/2) := by
  have hbad : Geo.inDistrictBbox Geo.c2raw (some ((10 : ℚ), (10 : ℚ)).1)
      (some ((10 : ℚ), (10 : ℚ)).2) "Kentron" = some false := by
    have h0 : Geo.inDistrictBbox Geo.c2raw (some ((10 : ℚ), (10 : ℚ)).1)
        (some ((10 : ℚ), (10 : ℚ)).2) "Kentron"
        = some (decide ((0 - 3/1000 : ℚ) ≤ 10 ∧ (10 : ℚ) ≤ 1 + 3/1000 ∧
            (0 - 3/1000 : ℚ) ≤ 10 ∧ (10 : ℚ) ≤ 1 + 3/1000)) := rfl
    rw [h0]
    simp only [Option.some.injEq]
    rw [decide_eq_false_iff_not]
    norm_num
  have h := (c2_try_geocode Geo.c2geo Geo.c2raw "Q, Yerevan, Armenia" "Kentron"
    (some (Geo.expandBbox ⟨0, 1, 0, 1⟩)) (fun _ _ _ => by simp)).2
    ((10 : ℚ), (10 : ℚ)) rfl hbad
  obtain ⟨vb, hv, _hcalls, hres⟩ := h
  rw [hres]
  cases hv
  have hok : Geo.inDistrictBbox Geo.c2raw (some (((1:ℚ)/2, (1:ℚ)/2)).1)
      (some (((1:ℚ)/2, (1:ℚ)/2)).2) "Kentron" = some true := by
    have h1 : Geo.inDistrictBbox Geo.c2raw (some (((1:ℚ)/2, (1:ℚ)/2)).1)
        (some (((1:ℚ)/2, (1:ℚ)/2)).2) "Kentron"
        = some (decide ((0 - 3/1000 : ℚ) ≤ 1/2 ∧ (1/2 : ℚ) ≤ 1 + 3/1000 ∧
            (0 - 3/1000 : ℚ) ≤ 1/2 ∧ (1/2 : ℚ) ≤ 1 + 3/1000)) := rfl
    rw [h1]
    simp only [Option.some.injEq]
    rw [decide_eq_true_eq]
    norm_num
  show (if Geo.inDistrictBbox Geo.c2raw (some (((1:ℚ)/2, (1:ℚ)/2)).1)
      (some (((1:ℚ)/2, (1:ℚ)/2)).2) "Kentron" ≠ some false then
      some (((1:ℚ)/2, (1:ℚ)/2)) else none) = some (1/2, 1/2)
  rw [if_pos (by rw [hok]; simp)]

/-- Helper: an if whose branches both carry a failed (none) first component
is a pair with a none first component. -/
theorem ite_none_pair {α β : Type} (c : Prop) [Decidable c] (a b : β) :
    (if c then ((none : Option α), a) else (none, b)) = (none, if c then a else b) := by
  split <;> rfl

/-- Helper: with a geocoding oracle that always fails, try_geocode returns
no result and issues exactly the unbounded call. -/
theorem tryGeocode_fail (geo : Geo.GeoOracle) (raw : String → Option Geo.BBox)
    (hgeo : ∀ q vb b, geo q vb b = none) (q d : String) (vb : Option Geo.BBox) :
    Geo.tryGeocode geo raw q d vb = (none, [⟨q, vb, false⟩]) := by
  unfold Geo.tryGeocode
  rw [hgeo q vb false]

/-- Helper: when every geocoding call fails and no override entry exists,
geocode_listing marks the listing failed with null coordinates. -/
theorem geocodeListing_all_fail (geo : Geo.GeoOracle) (raw : String → Option Geo.BBox)
    (norm : String → String) (l : Geo.Listing) (ov : String → Option Geo.OverrideEntry)
    (hgeo : ∀ q vb b, geo q vb b = none)
    (hlat : l.lat = none) (hov : ov (toString l.id) = none) :
    (Geo.geocodeListing geo raw norm l ov).1 =
      { l with lat := none, lng := none, precision := some "failed" } := by
  unfold Geo.geocodeListing
  rw [if_neg (by simp [hlat]), hov]
  simp only [tryGeocode_fail geo raw hgeo, hgeo, ite_none_pair]

/-- C6: the re-geocoding reset (_reset_bad_geocodes_for_regen) never
modifies a listing whose precision is source_map, source_approx, override
or address; it nulls lat, lng and precision for every listing with
precision district or district_jitter; and for a street-level listing it
nulls the coordinates exactly when the district bounding-box check on the
current coordinates returns false (otherwise the listing is unchanged). -/
theorem c6_reset (raw : String → Option Geo.BBox) (l : Geo.Listing) :
    ((l.precision = some "source_map" ∨ l.precision = some "source_approx" ∨
        l.precision = some "override" ∨ l.precision = some "address") →
      Regen.resetOne raw l = l) ∧
    ((l.precision = some "district" ∨ l.precision = some "district_jitter") →
      Regen.resetOne raw l = { l with lat := none, lng := none, precision := none }) ∧
    ((l.precision = some "street" ∨ l.precision = some "street_jitter" ∨
        l.precision = some "street_spread") →
      (Geo.inDistrictBbox raw l.lat l.lng l.district = some false →
        Regen.resetOne raw l = { l with lat := none, lng := none, precision := none }) ∧
      (Geo.inDistrictBbox raw l.lat l.lng l.district ≠ some false →
        Regen.resetOne raw l = l)) := by
  refine ⟨?_, ?_, ?_⟩
  · intro hp
    unfold Regen.resetOne
    obtain hp | hp | hp | hp := hp <;> rw [hp] <;> rfl
  · intro hp
    unfold Regen.resetOne
    obtain hp | hp := hp <;> rw [hp] <;>
      · rw [if_neg (by decide), if_pos (by decide),
          if_pos (Or.inr (Or.inr (by decide)))]
  · intro hp
    have hnp : ¬(Str.strip (l.precision.getD "") ∈ Regen.protectedPrecisions) := by
      obtain hp | hp | hp := hp <;> rw [hp] <;> decide
    have hnd : ¬(Str.strip (l.precision.getD "") = "district" ∨
        Str.strip (l.precision.getD "") = "district_jitter") := by
      obtain hp | hp | hp := hp <;> rw [hp] <;> decide
    have hnone1 : ∀ (x : Option ℚ) (d : String), Geo.inDistrictBbox raw none x d = none :=
      fun _ _ => rfl
    have hnone2 : ∀ (x : Option ℚ) (d : String), Geo.inDistrictBbox raw x none d = none :=
      fun x _ => by cases x <;> rfl
    have hempty : ∀ la ln : ℚ, Geo.inDistrictBbox raw (some la) (some ln) "" = none :=
      fun _ _ => rfl
    constructor
    · intro hbb
      unfold Regen.resetOne
      rw [if_neg hnp, if_neg hnd]
      have hcont : ¬(l.lat = none ∨ l.lng = none ∨ l.district = "") := by
        rintro (h | h | h)
        · rw [h, hnone1] at hbb; exact Option.noConfusion hbb
        · rw [h, hnone2] at hbb; exact Option.noConfusion hbb
        · rw [h] at hbb
          cases hla : l.lat with
          | none => rw [hla, hnone1] at hbb; exact Option.noConfusion hbb
          | some la =>
            cases hln : l.lng with
            | none => rw [hla, hln, hnone2] at hbb; exact Option.noConfusion hbb
            | some ln =>
              rw [hla, hln, hempty] at hbb
              exact Option.noConfusion hbb
      rw [if_neg hcont, if_pos hbb]
    · intro hbb
      unfold Regen.resetOne
      rw [if_neg hnp, if_neg hnd]
      by_cases hc : (l.lat = none ∨ l.lng = none ∨ l.district = "")
      · rw [if_pos hc]
      · rw [if_neg hc, if_neg hbb]

/-- C6 witness: the theorem applied to a concrete district-precision
listing, whose coordinates and precision are cleared. -/
theorem c6_witness :
    Regen.resetOne Geo.noRaw Regen.witnessDistrictListing =
      { Regen.witnessDistrictListing with lat := none, lng := none, precision := none } :=
  (c6_reset Geo.noRaw Regen.witnessDistrictListing).2.1 (Or.inl rfl)

/-- Helper: the needs-manual shape of an accumulator entry survives the
rest of the new_overrides fold. -/
theorem newOvFold_keep (ov : String → Option Geo.OverrideEntry)
    (fs : List Geo.Listing) (lid : String) :
    ∀ acc : String → Option Geo.OverrideEntry,
      (∃ s, acc lid = some (Geo.needsManualEntry s)) →
      ∃ s, (fs.foldl (Geo.newOvStep ov) acc) lid = some (Geo.needsManualEntry s) := by
  induction fs with
  | nil => intro acc h; exact h
  | cons l' fs ih =>
    intro acc h
    simp only [List.foldl_cons]
    apply ih
    unfold Geo.newOvStep
    by_cases ho : ov (toString l'.id) = none
    · rw [if_pos ho]
      by_cases hk : lid = toString l'.id
      · exact ⟨l'.street, by rw [if_pos hk]⟩
      · obtain ⟨s, hs⟩ := h
        exact ⟨s, by rw [if_neg hk]; exact hs⟩
    · rw [if_neg ho]
      exact h

/-- Helper: a failed listing whose id is not yet in the override map makes
the new_overrides fold produce a needs-manual entry for that id. -/
theorem newOvFold_mem (ov : String → Option Geo.OverrideEntry)
    (fs : List Geo.Listing) (lid : String) (hov : ov lid = none) :
    ∀ acc : String → Option Geo.OverrideEntry,
      (∃ l' ∈ fs, toString l'.id = lid) →
      ∃ s, (fs.foldl (Geo.newOvStep ov) acc) lid = some (Geo.needsManualEntry s) := by
  induction fs with
  | nil =>
    rintro acc ⟨l', hmem, _⟩
    exact absurd hmem (List.not_mem_nil l')
  | cons l' fs ih =>
    rintro acc ⟨w, hw, hwid⟩
    simp only [List.foldl_cons]
    rcases List.mem_cons.mp hw with rfl | hw'
    · apply newOvFold_keep
      refine ⟨w.street, ?_⟩
      unfold Geo.newOvStep
      rw [hwid, if_pos hov, if_pos rfl]
    · exact ih _ ⟨w, hw', hwid⟩

/-- Helper: the new_overrides fold never touches a key already present in
the override map. -/
theorem newOvFold_none (ov : String → Option Geo.OverrideEntry)
    (fs : List Geo.Listing) (k : String) (v : Geo.OverrideEntry) (hk : ov k = some v) :
    ∀ acc : String → Option Geo.OverrideEntry, acc k = none →
      (fs.foldl (Geo.newOvStep ov) acc) k = none := by
  induction fs with
  | nil => intro acc h; exact h
  | cons l' fs ih =>
    intro acc h
    simp only [List.foldl_cons]
    apply ih
    unfold Geo.newOvStep
    by_cases ho : ov (toString l'.id) = none
    · rw [if_pos ho]
      by_cases hkk : k = toString l'.id
      · rw [← hkk] at ho
        rw [hk] at ho
        exact Option.noConfusion ho
      · rw [if_neg hkk]
        exact h
    · rw [if_neg ho]
      exact h

/-- C8: when every geocoding call fails for a pending listing (null lat, no
override entry), run_geocoder leaves it with null coordinates and precision
"failed"; afterwards the persisted override map holds a needs-manual
geocoding entry for its id; and no existing override entry is ever removed
or modified. -/
theorem c8_resolution_exhaustion (geo : Geo.GeoOracle) (raw : String → Option Geo.BBox)
    (norm : String → String) (ov : String → Option Geo.OverrideEntry)
    (listings : List Geo.Listing)
    (hgeo : ∀ q vb b, geo q vb b = none) (i : ℕ) (l : Geo.Listing)
    (hget : listings.get? i = some l) (hlat : l.lat = none)
    (hov : ov (toString l.id) = none) :
    (Geo.runGeocoder geo raw norm ov listings).1.get? i =
        some { l with lat := none, lng := none, precision := some "failed" } ∧
      (∃ s, (Geo.runGeocoder geo raw norm ov listings).2 (toString l.id) =
        some (Geo.needsManualEntry s)) ∧
      (∀ k v, ov k = some v → (Geo.runGeocoder geo raw norm ov listings).2 k = some v) := by
  have hfail : (Geo.geocodeListing geo raw norm l ov).1 =
      { l with lat := none, lng := none, precision := some "failed" } :=
    geocodeListing_all_fail geo raw norm l ov hgeo hlat hov
  have hmem : l ∈ listings := List.get?_mem hget
  have hfl : (if l.lat = none then (Geo.geocodeListing geo raw norm l ov).1 else l) =
      { l with lat := none, lng := none, precision := some "failed" } := by
    rw [if_pos hlat, hfail]
  have hpairmem : (l, if l.lat = none then (Geo.geocodeListing geo raw norm l ov).1 else l)
      ∈ listings.map (fun l =>
        (l, if l.lat = none then (Geo.geocodeListing geo raw norm l ov).1 else l)) :=
    List.mem_map_of_mem _ hmem
  refine ⟨?_, ?_, ?_⟩
  · simp only [Geo.runGeocoder, List.get?_map, hget, Option.map_some']
    exact congrArg some hfl
  · simp only [Geo.runGeocoder, Geo.newOverridesOf]
    have hpairfilter : (l, if l.lat = none then (Geo.geocodeListing geo raw norm l ov).1 else l)
        ∈ (listings.map (fun l =>
          (l, if l.lat = none then (Geo.geocodeListing geo raw norm l ov).1 else l))).filter
          (fun p => p.1.lat = none ∧ Geo.latFalsy p.2.lat) := by
      rw [List.mem_filter]
      refine ⟨hpairmem, ?_⟩
      simp [hlat, hfail, Geo.latFalsy]
    have hinfail : ({ l with lat := none, lng := none, precision := some "failed" } :
        Geo.Listing) ∈ ((listings.map (fun l =>
          (l, if l.lat = none then (Geo.geocodeListing geo raw norm l ov).1 else l))).filter
          (fun p => p.1.lat = none ∧ Geo.latFalsy p.2.lat)).map Prod.snd := by
      rw [← hfl]
      exact List.mem_map_of_mem Prod.snd hpairfilter
    obtain ⟨s, hs⟩ := newOvFold_mem ov _ (toString l.id) hov (fun _ => none)
      ⟨_, hinfail, rfl⟩
    refine ⟨s, ?_⟩
    rw [hs]
  · intro k v hk
    simp only [Geo.runGeocoder, Geo.newOverridesOf]
    rw [newOvFold_none ov _ k v hk _ rfl]
    exact hk

/-- C8 witness: the theorem applied to a single pending listing with the
all-failing oracle and an empty override map. -/
theorem c8_witness :
    (Geo.runGeocoder Geo.noGeo Geo.noRaw Geo.idNorm (fun _ => none)
        [Geo.pendingListing]).1.get? 0 =
      some { Geo.pendingListing with
              lat := none, lng := none, precision := some "failed" } ∧
    (∃ s, (Geo.runGeocoder Geo.noGeo Geo.noRaw Geo.idNorm (fun _ => none)
        [Geo.pendingListing]).2 (toString Geo.pendingListing.id) =
      some (Geo.needsManualEntry s)) ∧
    (∀ k v, (fun _ => (none : Option Geo.OverrideEntry)) k = some v →
      (Geo.runGeocoder Geo.noGeo Geo.noRaw Geo.idNorm (fun _ => none)
        [Geo.pendingListing]).2 k = some v) :=
  c8_resolution_exhaustion Geo.noGeo Geo.noRaw Geo.idNorm (fun _ => none)
    [Geo.pendingListing] (fun _ _ _ => rfl) 0 Geo.pendingListing rfl rfl rfl

/-- Helper: the outcome of one relaxation step is either no change, or an
update-and-push of the improved time. -/
theorem rstep_cases {W Node : Type} [LinearOrder W] [Add W] [DecidableEq Node]
    (B t : W) (st : Iso.DState W Node) (p : Node × W) :
    Iso.rstep B t st p = st ∨
      (¬ (B < t + p.2) ∧ Iso.improves (t + p.2) (st.dist p.1) = true ∧
        Iso.rstep B t st p =
          ⟨fun v => if v = p.1 then some (t + p.2) else st.dist v,
            (t + p.2, p.1) :: st.pq, (t + p.2, p.1) :: st.trace⟩) := by
  unfold Iso.rstep
  by_cases h1 : B < t + p.2
  · left
    rw [if_pos h1]
  · by_cases h2 : Iso.improves (t + p.2) (st.dist p.1) = true
    · right
      exact ⟨h1, h2, by rw [if_neg h1, if_pos h2]⟩
    · left
      rw [if_neg h1, if_neg h2]

/-- Helper: one relaxation step never increases a tentative distance. -/
theorem rstep_dist_le {W Node : Type} [LinearOrder W] [Add W] [DecidableEq Node]
    (B t : W) (st : Iso.DState W Node) (p : Node × W) (v : Node) (d : W)
    (hd : st.dist v = some d) :
    ∃ d', (Iso.rstep B t st p).dist v = some d' ∧ d' ≤ d := by
  rcases rstep_cases B t st p with h | ⟨_h1, h2, h3⟩
  · rw [h]
    exact ⟨d, hd, le_refl d⟩
  · rw [h3]
    by_cases hv : v = p.1
    · subst hv
      refine ⟨t + p.2, by simp, ?_⟩
      rw [hd] at h2
      unfold Iso.improves at h2
      exact le_of_lt (of_decide_eq_true h2)
    · exact ⟨d, by simpa [hv] using hd, le_refl d⟩

/-- Helper: one relaxation step keeps all queue entries. -/
theorem rstep_pq_sub {W Node : Type} [LinearOrder W] [Add W] [DecidableEq Node]
    (B t : W) (st : Iso.DState W Node) (p : Node × W) (e : W × Node)
    (h : e ∈ st.pq) : e ∈ (Iso.rstep B t st p).pq := by
  rcases rstep_cases B t st p with hc | ⟨_, _, hc⟩ <;> rw [hc]
  · exact h
  · exact List.mem_cons_of_mem _ h

/-- Helper: one relaxation step keeps all trace entries. -/
theorem rstep_trace_sub {W Node : Type} [LinearOrder W] [Add W] [DecidableEq Node]
    (B t : W) (st : Iso.DState W Node) (p : Node × W) (e : W × Node)
    (h : e ∈ st.trace) : e ∈ (Iso.rstep B t st p).trace := by
  rcases rstep_cases B t st p with hc | ⟨_, _, hc⟩ <;> rw [hc]
  · exact h
  · exact List.mem_cons_of_mem _ h

/-- Helper: when the relaxed time is within the budget, one relaxation step
leaves the neighbor with a tentative distance no worse than it. -/
theorem rstep_self_le {W Node : Type} [LinearOrder W] [Add W] [DecidableEq Node]
    (B t : W) (st : Iso.DState W Node) (p : Node × W) (hle : ¬ (B < t + p.2)) :
    ∃ d, (Iso.rstep B t st p).dist p.1 = some d ∧ d ≤ t + p.2 := by
  unfold Iso.rstep
  rw [if_neg hle]
  by_cases h2 : Iso.improves (t + p.2) (st.dist p.1) = true
  · rw [if_pos h2]
    exact ⟨t + p.2, by simp, le_refl _⟩
  · rw [if_neg h2]
    unfold Iso.improves at h2
    cases hd : st.dist p.1 with
    | none =>
      rw [hd] at h2
      simp at h2
    | some d =>
      rw [hd] at h2
      refine ⟨d, rfl, ?_⟩
      exact not_lt.mp fun hlt => h2 (decide_eq_true hlt)

/-- Helper: the relaxation loop never increases a tentative distance. -/
theorem relax_dist_le {W Node : Type} [LinearOrder W] [Add W] [DecidableEq Node]
    (B t : W) (nbrs : List (Node × W)) :
    ∀ (s : Iso.DState W Node) (v : Node) (d : W), s.dist v = some d →
      ∃ d', (Iso.relax B t nbrs s).dist v = some d' ∧ d' ≤ d := by
  induction nbrs with
  | nil =>
    intro s v d h
    exact ⟨d, h, le_refl d⟩
  | cons p rest ih =>
    intro s v d h
    obtain ⟨d1, hd1, hle1⟩ := rstep_dist_le B t s p v d h
    obtain ⟨d2, hd2, hle2⟩ := ih (Iso.rstep B t s p) v d1 hd1
    exact ⟨d2, hd2, le_trans hle2 hle1⟩

/-- Helper: the relaxation loop keeps all queue entries. -/
theorem relax_pq_sub {W Node : Type} [LinearOrder W] [Add W] [DecidableEq Node]
    (B t : W) (nbrs : List (Node × W)) :
    ∀ (s : Iso.DState W Node) (e : W × Node), e ∈ s.pq →
      e ∈ (Iso.relax B t nbrs s).pq := by
  induction nbrs with
  | nil => intro s e h; exact h
  | cons p rest ih =>
    intro s e h
    exact ih (Iso.rstep B t s p) e (rstep_pq_sub B t s p e h)

/-- Helper: the relaxation loop keeps all trace entries. -/
theorem relax_trace_sub {W Node : Type} [LinearOrder W] [Add W] [DecidableEq Node]
    (B t : W) (nbrs : List (Node × W)) :
    ∀ (s : Iso.DState W Node) (e : W × Node), e ∈ s.trace →
      e ∈ (Iso.relax B t nbrs s).trace := by
  induction nbrs with
  | nil => intro s e h; exact h
  | cons p rest ih =>
    intro s e h
    exact ih (Iso.rstep B t s p) e (rstep_trace_sub B t s p e h)

/-- Helper: after relaxing all neighbors, every neighbor reachable within
the budget has a tentative distance no worse than through the popped
node. -/
theorem relax_covers {W Node : Type} [LinearOrder W] [Add W] [DecidableEq Node]
    (B t : W) (nbrs : List (Node × W)) :
    ∀ (s : Iso.DState W Node), ∀ p ∈ nbrs, t + p.2 ≤ B →
      ∃ d, (Iso.relax B t nbrs s).dist p.1 = some d ∧ d ≤ t + p.2 := by
  induction nbrs with
  | nil =>
    intro s p hp
    exact absurd hp (List.not_mem_nil p)
  | cons q rest ih =>
    intro s p hp hle
    rcases List.mem_cons.mp hp with rfl | hp'
    · obtain ⟨d, hd, hdle⟩ := rstep_self_le B t s p (not_lt.mpr hle)
      obtain ⟨d2, hd2, hle2⟩ := relax_dist_le B t rest (Iso.rstep B t s p) p.1 d hd
      exact ⟨d2, hd2, le_trans hle2 hdle⟩
    · exact ih (Iso.rstep B t s q) p hp' hle

/-- Helper: relaxation of the neighbors of a node with settled time t
preserves the invariant that tentative distances are path lengths within
the budget. -/
theorem relax_paths {W Node : Type} [LinearOrder W] [Add W] [Zero W] [DecidableEq Node]
    (adj : Node → List (Node × W)) (source : Node) (B t : W) (u : Node)
    (hu : Iso.IsPathLen adj source u t) (nbrs : List (Node × W)) :
    ∀ s : Iso.DState W Node, (∀ p ∈ nbrs, (p.1, p.2) ∈ adj u) →
      (∀ v d, s.dist v = some d → Iso.IsPathLen adj source v d ∧ d ≤ B) →
      ∀ v d, (Iso.relax B t nbrs s).dist v = some d →
        Iso.IsPathLen adj source v d ∧ d ≤ B := by
  induction nbrs with
  | nil =>
    intro s _ hs v d hd
    exact hs v d hd
  | cons q rest ih =>
    intro s hedge hs v d hd
    refine ih (Iso.rstep B t s q) (fun p hp => hedge p (List.mem_cons_of_mem q hp)) ?_ v d hd
    intro v' d' hd'
    rcases rstep_cases B t s q with hc | ⟨h1, _h2, hc⟩
    · rw [hc] at hd'
      exact hs v' d' hd'
    · rw [hc] at hd'
      dsimp only at hd'
      by_cases hv : v' = q.1
      · rw [if_pos hv] at hd'
        obtain rfl : d' = t + q.2 := (Option.some.inj hd').symm
        subst hv
        exact ⟨Iso.IsPathLen.step hu (hedge q (List.mem_cons_self q rest)),
          not_lt.mp h1⟩
      · rw [if_neg hv] at hd'
        exact hs v' d' hd'

/-- Helper: relaxation preserves the invariant that queue entries are path
lengths within the budget. -/
theorem relax_pq_paths {W Node : Type} [LinearOrder W] [Add W] [Zero W] [DecidableEq Node]
    (adj : Node → List (Node × W)) (source : Node) (B t : W) (u : Node)
    (hu : Iso.IsPathLen adj source u t) (nbrs : List (Node × W)) :
    ∀ s : Iso.DState W Node, (∀ p ∈ nbrs, (p.1, p.2) ∈ adj u) →
      (∀ e ∈ s.pq, Iso.IsPathLen adj source e.2 e.1 ∧ e.1 ≤ B) →
      ∀ e ∈ (Iso.relax B t nbrs s).pq, Iso.IsPathLen adj source e.2 e.1 ∧ e.1 ≤ B := by
  induction nbrs with
  | nil =>
    intro s _ hs e he
    exact hs e he
  | cons q rest ih =>
    intro s hedge hs e he
    refine ih (Iso.rstep B t s q) (fun p hp => hedge p (List.mem_cons_of_mem q hp)) ?_ e he
    intro e' he'
    rcases rstep_cases B t s q with hc | ⟨h1, _h2, hc⟩
    · rw [hc] at he'
      exact hs e' he'
    · rw [hc] at he'
      dsimp only at he'
      rcases List.mem_cons.mp he' with rfl | he''
      · exact ⟨Iso.IsPathLen.step hu (hedge q (List.mem_cons_self q rest)),
          not_lt.mp h1⟩
      · exact hs e' he''

/-- Helper: relaxation preserves the invariant that each queue entry
dominates the tentative distance of its node. -/
theorem relax_pq_dom {W Node : Type} [LinearOrder W] [Add W] [DecidableEq Node]
    (B t : W) (nbrs : List (Node × W)) :
    ∀ s : Iso.DState W Node,
      (∀ e ∈ s.pq, ∃ d, s.dist e.2 = some d ∧ d ≤ e.1) →
      ∀ e ∈ (Iso.relax B t nbrs s).pq,
        ∃ d, (Iso.relax B t nbrs s).dist e.2 = some d ∧ d ≤ e.1 := by
  induction nbrs with
  | nil =>
    intro s hs e he
    exact hs e he
  | cons q rest ih =>
    intro s hs e he
    refine ih (Iso.rstep B t s q) ?_ e he
    intro e' he'
    rcases rstep_cases B t s q with hc | ⟨h1, _h2, hc⟩
    · rw [hc] at he' ⊢
      exact hs e' he'
    · rw [hc] at he' ⊢
      dsimp only at he' ⊢
      rcases List.mem_cons.mp he' with rfl | he''
      · exact ⟨t + q.2, by rw [if_pos rfl], le_refl _⟩
      · obtain ⟨d, hd, hdle⟩ := hs e' he''
        by_cases hv : e'.2 = q.1
        · refine ⟨t + q.2, by rw [if_pos hv], ?_⟩
          rw [hv] at hd
          unfold Iso.improves at _h2
          rw [hd] at _h2
          exact le_trans (le_of_lt (of_decide_eq_true _h2)) hdle
        · exact ⟨d, by rw [if_neg hv]; exact hd, hdle⟩

/-- Helper: every tentative distance after relaxation is either the old one
or is pending as a queue entry. -/
theorem relax_sync {W Node : Type} [LinearOrder W] [Add W] [DecidableEq Node]
    (B t : W) (nbrs : List (Node × W)) :
    ∀ (s : Iso.DState W Node) (v : Node) (d : W),
      (Iso.relax B t nbrs s).dist v = some d →
      s.dist v = some d ∨ (d, v) ∈ (Iso.relax B t nbrs s).pq := by
  induction nbrs with
  | nil =>
    intro s v d hd
    exact Or.inl hd
  | cons q rest ih =>
    intro s v d hd
    rcases ih (Iso.rstep B t s q) v d hd with h | h
    · rcases rstep_cases B t s q with hc | ⟨_h1, _h2, hc⟩
      · rw [hc] at h
        exact Or.inl h
      · rw [hc] at h
        dsimp only at h
        by_cases hv : v = q.1
        · rw [if_pos hv] at h
          obtain rfl : d = t + q.2 := (Option.some.inj h).symm
          subst hv
          refine Or.inr (relax_pq_sub B t rest (Iso.rstep B t s q) (t + q.2, q.1) ?_)
          rw [hc]
          exact List.mem_cons_self _ _
        · rw [if_neg hv] at h
          exact Or.inl h
    · exact Or.inr h

/-- Helper: every trace entry after relaxation is an old one or within the
budget. -/
theorem relax_trace_bound {W Node : Type} [LinearOrder W] [Add W] [DecidableEq Node]
    (B t : W) (nbrs : List (Node × W)) :
    ∀ (s : Iso.DState W Node) (e : W × Node), e ∈ (Iso.relax B t nbrs s).trace →
      e ∈ s.trace ∨ e.1 ≤ B := by
  induction nbrs with
  | nil =>
    intro s e he
    exact Or.inl he
  | cons q rest ih =>
    intro s e he
    rcases ih (Iso.rstep B t s q) e he with h | h
    · rcases rstep_cases B t s q with hc | ⟨h1, _h2, hc⟩
      · rw [hc] at h
        exact Or.inl h
      · rw [hc] at h
        dsimp only at h
        rcases List.mem_cons.mp h with rfl | h'
        · exact Or.inr (not_lt.mp h1)
        · exact Or.inl h'
    · exact Or.inr h

/-- Helper: the minimum the heap pop returns is one of the queue
entries. -/
theorem minEntry_mem {W Node : Type} [LinearOrder W] [LinearOrder Node]
    (e : W × Node) (rest : List (W × Node)) : Iso.minEntry e rest ∈ e :: rest := by
  unfold Iso.minEntry
  induction rest generalizing e with
  | nil => simp
  | cons x xs ih =>
    simp only [List.foldl_cons]
    by_cases h : Iso.entryLt x e
    · rw [if_pos h]
      exact List.mem_cons_of_mem e (ih x)
    · rw [if_neg h]
      rcases List.mem_cons.mp (ih e) with h1 | h1
      · rw [h1]
        exact List.mem_cons_self _ _
      · exact List.mem_cons_of_mem e (List.mem_cons_of_mem x h1)

/-- Helper: a terminating run of the dijkstra_times loop ends with an empty
queue. -/
theorem dijkstraAux_pq_nil {W Node : Type} [LinearOrder W] [Add W] [DecidableEq Node]
    [LinearOrder Node] (adj : Node → List (Node × W)) (B : W) :
    ∀ (fuel : ℕ) (s s2 : Iso.DState W Node),
      Iso.dijkstraAux adj B fuel s = some s2 → s2.pq = [] := by
  intro fuel
  induction fuel with
  | zero =>
    intro s s2 h
    exact Option.noConfusion h
  | succ fuel ih =>
    intro s s2 h
    rw [Iso.dijkstraAux] at h
    cases hpq : s.pq with
    | nil =>
      rw [hpq] at h
      obtain rfl := Option.some.inj h
      exact hpq
    | cons e rest =>
      rw [hpq] at h
      dsimp only at h
      split at h
      · exact ih _ s2 h
      · split at h
        · exact ih _ s2 h
        · exact ih _ s2 h

/-- Helper: along a terminating run, tentative distances never increase and
never disappear. -/
theorem dijkstraAux_dist_le {W Node : Type} [LinearOrder W] [Add W] [DecidableEq Node]
    [LinearOrder Node] (adj : Node → List (Node × W)) (B : W) :
    ∀ (fuel : ℕ) (s s2 : Iso.DState W Node),
      Iso.dijkstraAux adj B fuel s = some s2 →
      ∀ v d, s.dist v = some d → ∃ d', s2.dist v = some d' ∧ d' ≤ d := by
  intro fuel
  induction fuel with
  | zero =>
    intro s s2 h
    exact Option.noConfusion h
  | succ fuel ih =>
    intro s s2 h v d hd
    rw [Iso.dijkstraAux] at h
    cases hpq : s.pq with
    | nil =>
      rw [hpq] at h
      obtain rfl := Option.some.inj h
      exact ⟨d, hd, le_refl d⟩
    | cons e rest =>
      rw [hpq] at h
      dsimp only at h
      split at h
      · exact ih _ s2 h v d hd
      · split at h
        · exact ih _ s2 h v d hd
        · obtain ⟨d1, hd1, hle1⟩ :=
            relax_dist_le B (Iso.minEntry e rest).1 (adj (Iso.minEntry e rest).2)
              ⟨s.dist, (e :: rest).erase (Iso.minEntry e rest), s.trace⟩ v d hd
          obtain ⟨d2, hd2, hle2⟩ := ih _ s2 h v d1 hd1
          exact ⟨d2, hd2, le_trans hle2 hle1⟩

/-- Helper: the loop invariant is preserved along a terminating run of the
dijkstra_times loop. -/
theorem dijkstraAux_inv {W Node : Type} [LinearOrder W] [Add W] [Zero W]
    [DecidableEq Node] [LinearOrder Node] (adj : Node → List (Node × W))
    (source : Node) (B : W) :
    ∀ (fuel : ℕ) (s s2 : Iso.DState W Node), Iso.DInv adj source B s →
      Iso.dijkstraAux adj B fuel s = some s2 → Iso.DInv adj source B s2 := by
  intro fuel
  induction fuel with
  | zero =>
    intro s s2 _ h
    exact Option.noConfusion h
  | succ fuel ih =>
    intro s s2 hinv h
    rw [Iso.dijkstraAux] at h
    cases hpq : s.pq with
    | nil =>
      rw [hpq] at h
      obtain rfl := Option.some.inj h
      exact hinv
    | cons e rest =>
      rw [hpq] at h
      dsimp only at h
      obtain ⟨h1, h2, h3, h4, h5⟩ := hinv
      have hm : Iso.minEntry e rest ∈ s.pq := by
        rw [hpq]
        exact minEntry_mem e rest
      by_cases hstale : s.dist (Iso.minEntry e rest).2 ≠ some (Iso.minEntry e rest).1
      · rw [if_pos hstale] at h
        refine ih ⟨s.dist, (e :: rest).erase (Iso.minEntry e rest), s.trace⟩ s2
          ⟨h1, ?_, ?_, h4, ?_⟩ h
        · intro e' he'
          exact h2 e' (by rw [hpq]; exact List.mem_of_mem_erase he')
        · intro e' he'
          exact h3 e' (by rw [hpq]; exact List.mem_of_mem_erase he')
        · intro v ev hv
          rcases h5 v ev hv with hin | hrel
          · left
            have hne : (ev, v) ≠ Iso.minEntry e rest := by
              intro hEq
              exact hstale (by rw [← hEq]; exact hv)
            rw [hpq] at hin
            exact (List.mem_erase_of_ne hne).mpr hin
          · right
            exact hrel
      · rw [if_neg hstale] at h
        have hdm : s.dist (Iso.minEntry e rest).2 = some (Iso.minEntry e rest).1 :=
          not_not.mp hstale
        by_cases hB : B < (Iso.minEntry e rest).1
        · exact absurd (h2 _ hm).2 (not_le.mpr hB)
        · rw [if_neg hB] at h
          have hum : Iso.IsPathLen adj source (Iso.minEntry e rest).2
              (Iso.minEntry e rest).1 := (h2 _ hm).1
          have hs'2 : ∀ e' ∈ (e :: rest).erase (Iso.minEntry e rest),
              Iso.IsPathLen adj source e'.2 e'.1 ∧ e'.1 ≤ B := fun e' he' =>
            h2 e' (by rw [hpq]; exact List.mem_of_mem_erase he')
          have hs'3 : ∀ e' ∈ (e :: rest).erase (Iso.minEntry e rest),
              ∃ d, s.dist e'.2 = some d ∧ d ≤ e'.1 := fun e' he' =>
            h3 e' (by rw [hpq]; exact List.mem_of_mem_erase he')
          refine ih (Iso.relax B (Iso.minEntry e rest).1 (adj (Iso.minEntry e rest).2)
            ⟨s.dist, (e :: rest).erase (Iso.minEntry e rest), s.trace⟩) s2
            ⟨?_, ?_, ?_, ?_, ?_⟩ h
          · exact relax_paths adj source B (Iso.minEntry e rest).1
              (Iso.minEntry e rest).2 hum (adj (Iso.minEntry e rest).2)
              ⟨s.dist, (e :: rest).erase (Iso.minEntry e rest), s.trace⟩
              (fun p hp => hp) h1
          · exact relax_pq_paths adj source B (Iso.minEntry e rest).1
              (Iso.minEntry e rest).2 hum (adj (Iso.minEntry e rest).2)
              ⟨s.dist, (e :: rest).erase (Iso.minEntry e rest), s.trace⟩
              (fun p hp => hp) hs'2
          · exact relax_pq_dom B (Iso.minEntry e rest).1 (adj (Iso.minEntry e rest).2)
              ⟨s.dist, (e :: rest).erase (Iso.minEntry e rest), s.trace⟩ hs'3
          · intro e' he'
            rcases relax_trace_bound B (Iso.minEntry e rest).1
              (adj (Iso.minEntry e rest).2)
              ⟨s.dist, (e :: rest).erase (Iso.minEntry e rest), s.trace⟩ e' he' with
              hold | hb
            · exact h4 e' hold
            · exact hb
          · intro v ev hv
            rcases relax_sync B (Iso.minEntry e rest).1 (adj (Iso.minEntry e rest).2)
              ⟨s.dist, (e :: rest).erase (Iso.minEntry e rest), s.trace⟩ v ev hv with
              hold | hin
            · rcases h5 v ev hold with hin0 | hrel0
              · by_cases hEq : (ev, v) = Iso.minEntry e rest
                · right
                  intro p hp hple
                  have hev : ev = (Iso.minEntry e rest).1 := congrArg Prod.fst hEq
                  obtain ⟨d0, hd0, hd0le⟩ := relax_covers B (Iso.minEntry e rest).1
                    (adj (Iso.minEntry e rest).2)
                    ⟨s.dist, (e :: rest).erase (Iso.minEntry e rest), s.trace⟩ p
                    (by rw [← congrArg Prod.snd hEq]; exact hp)
                    (by rw [← hev]; exact hple)
                  refine ⟨d0, ?_, ?_⟩
                  · exact hd0
                  · rw [hev]
                    exact hd0le
                · left
                  apply relax_pq_sub
                  rw [hpq] at hin0
                  exact (List.mem_erase_of_ne hEq).mpr hin0
              · right
                intro p hp hple
                obtain ⟨d0, hd0, hd0le⟩ := hrel0 p hp hple
                obtain ⟨d1, hd1, hd1le⟩ := relax_dist_le B (Iso.minEntry e rest).1
                  (adj (Iso.minEntry e rest).2)
                  ⟨s.dist, (e :: rest).erase (Iso.minEntry e rest), s.trace⟩ p.1 d0 hd0
                exact ⟨d1, hd1, le_trans hd1le hd0le⟩
            · left
              exact hin

/-- Helper: in the final state of a terminating run, every path within the
budget dominates the recorded time of its endpoint. -/
theorem dijkstra_pathUB {W Node : Type} [LinearOrderedAddCommMonoid W]
    [DecidableEq Node] [LinearOrder Node]
    (adj : Node → List (Node × W)) (source : Node) (B : W) (fuel : ℕ)
    (s2 : Iso.DState W Node)
    (hw : ∀ u, ∀ p ∈ adj u, 0 ≤ p.2)
    (hrun : Iso.dijkstraAux adj B fuel (Iso.dijkstraInit source) = some s2)
    (hinv : Iso.DInv adj source B s2) (hpq : s2.pq = []) :
    ∀ (v : Node) (d : W), Iso.IsPathLen adj source v d → d ≤ B →
      ∃ d', s2.dist v = some d' ∧ d' ≤ d := by
  intro v d hpath
  induction hpath with
  | base =>
    intro _hB
    have h0 : (Iso.dijkstraInit (W := W) source).dist source = some 0 := by
      unfold Iso.dijkstraInit
      simp
    exact dijkstraAux_dist_le adj B fuel _ s2 hrun source 0 h0
  | step hp he ihp =>
    rename_i u v' t w
    intro htwB
    have htB : t ≤ B := le_trans (le_add_of_nonneg_right (hw u (v', w) he)) htwB
    obtain ⟨e0, he0, he0le⟩ := ihp htB
    obtain ⟨_, _, _, _, h5⟩ := hinv
    rcases h5 u e0 he0 with hin | hrel
    · rw [hpq] at hin
      exact absurd hin (List.not_mem_nil _)
    · obtain ⟨d1, hd1, hd1le⟩ := hrel (v', w) he
        (le_trans (add_le_add_right he0le w) htwB)
      exact ⟨d1, hd1, le_trans hd1le (add_le_add_right he0le w)⟩

/-- C7: over a graph with non-negative edge weights and a non-negative time
budget, a terminating run of dijkstra_times never enqueues an entry with
tentative time above the budget (every entry of the ghost push trace,
including the initial one, respects the budget), and the returned map
contains a node exactly when some walk from the source reaches it within
the budget, in which case the recorded value is the least travel time of
all walks from the source (so in particular no returned value exceeds the
budget). -/
theorem c7_dijkstra_times {W Node : Type} [LinearOrderedAddCommMonoid W]
    [DecidableEq Node] [LinearOrder Node]
    (adj : Node → List (Node × W)) (source : Node) (B : W) (fuel : ℕ)
    (D : Node → Option W) (trace : List (W × Node))
    (hw : ∀ u, ∀ p ∈ adj u, 0 ≤ p.2) (hB : (0 : W) ≤ B)
    (hrun : Iso.dijkstraTimes adj source B fuel = some (D, trace)) :
    (∀ e ∈ trace, e.1 ≤ B) ∧
    ∀ (v : Node) (d : W), D v = some d ↔
      (Iso.IsPathLen adj source v d ∧ d ≤ B ∧
        ∀ d', Iso.IsPathLen adj source v d' → d ≤ d') := by
  unfold Iso.dijkstraTimes at hrun
  cases hs2 : Iso.dijkstraAux adj B fuel (Iso.dijkstraInit source) with
  | none =>
    rw [hs2] at hrun
    exact Option.noConfusion hrun
  | some s2 =>
    rw [hs2] at hrun
    simp only [Option.map_some'] at hrun
    have hpair := Option.some.inj hrun
    have hD : D = s2.dist := (congrArg Prod.fst hpair).symm
    have hT : trace = s2.trace := (congrArg Prod.snd hpair).symm
    subst hD
    subst hT
    have hinv0 : Iso.DInv adj source B (Iso.dijkstraInit source) := by
      refine ⟨?_, ?_, ?_, ?_, ?_⟩
      · intro v d hd
        unfold Iso.dijkstraInit at hd
        dsimp only at hd
        by_cases hv : v = source
        · rw [if_pos hv] at hd
          obtain rfl : d = 0 := (Option.some.inj hd).symm
          subst hv
          exact ⟨Iso.IsPathLen.base, hB⟩
        · rw [if_neg hv] at hd
          exact Option.noConfusion hd
      · intro e he
        obtain rfl := List.mem_singleton.mp he
        exact ⟨Iso.IsPathLen.base, hB⟩
      · intro e he
        obtain rfl := List.mem_singleton.mp he
        refine ⟨0, ?_, le_refl 0⟩
        unfold Iso.dijkstraInit
        simp
      · intro e he
        obtain rfl := List.mem_singleton.mp he
        exact hB
      · intro v ev hv
        left
        unfold Iso.dijkstraInit at hv ⊢
        dsimp only at hv ⊢
        by_cases hvs : v = source
        · rw [if_pos hvs] at hv
          obtain rfl : ev = 0 := (Option.some.inj hv).symm
          subst hvs
          exact List.mem_singleton.mpr rfl
        · rw [if_neg hvs] at hv
          exact Option.noConfusion hv
    have hinv := dijkstraAux_inv adj source B fuel _ s2 hinv0 hs2
    have hpq := dijkstraAux_pq_nil adj B fuel _ s2 hs2
    obtain ⟨h1, h2, h3, h4, h5⟩ := hinv
    refine ⟨h4, ?_⟩
    intro v d
    constructor
    · intro hd
      obtain ⟨hpath, hdB⟩ := h1 v d hd
      refine ⟨hpath, hdB, ?_⟩
      intro d' hp'
      by_cases hd'B : d' ≤ B
      · obtain ⟨e0, he0, he0le⟩ := dijkstra_pathUB adj source B fuel s2 hw hs2
          ⟨h1, h2, h3, h4, h5⟩ hpq v d' hp' hd'B
        rw [hd] at he0
        rw [Option.some.inj he0]
        exact he0le
      · exact le_trans hdB (le_of_lt (not_le.mp hd'B))
    · rintro ⟨hpath, hdB, hmin⟩
      obtain ⟨e0, he0, he0le⟩ := dijkstra_pathUB adj source B fuel s2 hw hs2
        ⟨h1, h2, h3, h4, h5⟩ hpq v d hpath hdB
      obtain ⟨hpath0, _⟩ := h1 v e0 he0
      have heq : e0 = d := le_antisymm he0le (hmin e0 hpath0)
      rw [← heq]
      exact he0

/-- C7 witness: the theorem applied to a concrete two-node graph with ℕ
weights (source false, one edge of weight 2 to true), budget 5, fuel 10;
the run terminates and both pushed entries respect the budget. -/
theorem c7_witness :
    (∀ e ∈ [((2 : ℕ), true), (0, false)], e.1 ≤ 5) ∧
    ∀ (v : Bool) (d : ℕ),
      ((fun v => if v = true then some 2 else if v = false then some 0 else none :
        Bool → Option ℕ) v = some d ↔
      (Iso.IsPathLen Iso.c7adj false v d ∧ d ≤ 5 ∧
        ∀ d', Iso.IsPathLen Iso.c7adj false v d' → d ≤ d')) :=
  c7_dijkstra_times Iso.c7adj false 5 10
    (fun v => if v = true then some 2 else if v = false then some 0 else none)
    [(2, true), (0, false)] (by decide) (by decide) rfl

/-- Helper: the jitter offset lands within r meters of the center in the
local equirectangular metric, for any angle, given a non-negative radius
and a non-negative cosine of the latitude. -/
theorem jitter_core (lat lon angle r : ℝ) (hr : 0 ≤ r)
    (hcos : 0 ≤ Real.cos (Spread.radians lat)) :
    Spread.localDistanceM (lat, lon)
      (lat + r * Real.cos angle / 111111,
        lon + r * Real.sin angle /
          (111111 * max (Real.cos (Spread.radians lat)) (1 / 1000000))) ≤ r := by
  unfold Spread.localDistanceM
  dsimp only
  have hmx : (0 : ℝ) < max (Real.cos (Spread.radians lat)) (1 / 1000000) :=
    lt_of_lt_of_le (by norm_num) (le_max_right _ _)
  have h111 : (111111 : ℝ) ≠ 0 := by norm_num
  have hA : (lat + r * Real.cos angle / 111111 - lat) * 111111 = r * Real.cos angle := by
    field_simp
    ring
  have hBv : (lon + r * Real.sin angle /
        (111111 * max (Real.cos (Spread.radians lat)) (1 / 1000000)) - lon) *
        (111111 * Real.cos (Spread.radians lat)) =
      r * Real.sin angle *
        (Real.cos (Spread.radians lat) /
          max (Real.cos (Spread.radians lat)) (1 / 1000000)) := by
    rw [add_sub_cancel_left]
    field_simp
    ring
  rw [hA, hBv]
  have hk1 : Real.cos (Spread.radians lat) /
      max (Real.cos (Spread.radians lat)) (1 / 1000000) ≤ 1 :=
    div_le_one_of_le (le_max_left _ _) hmx.le
  have hk0 : 0 ≤ Real.cos (Spread.radians lat) /
      max (Real.cos (Spread.radians lat)) (1 / 1000000) := div_nonneg hcos hmx.le
  have hX : (r * Real.cos angle) ^ 2 +
      (r * Real.sin angle *
        (Real.cos (Spread.radians lat) /
          max (Real.cos (Spread.radians lat)) (1 / 1000000))) ^ 2 ≤ r ^ 2 := by
    nlinarith [Real.sin_sq_add_cos_sq angle, sq_nonneg (r * Real.sin angle),
      mul_nonneg (sub_nonneg.mpr hk1) (by linarith : (0 : ℝ) ≤ 1 +
        Real.cos (Spread.radians lat) /
          max (Real.cos (Spread.radians lat)) (1 / 1000000)),
      sq_nonneg r, sq_nonneg (Real.sin angle)]
  calc Real.sqrt ((r * Real.cos angle) ^ 2 +
      (r * Real.sin angle *
        (Real.cos (Spread.radians lat) /
          max (Real.cos (Spread.radians lat)) (1 / 1000000))) ^ 2)
      ≤ Real.sqrt (r ^ 2) := Real.sqrt_le_sqrt hX
    _ = r := Real.sqrt_sq hr

/-- C3: deterministic_jitter is a pure function of (center, id, radius):
two calls with identical arguments give identical output; and for every
center with latitude in the valid range and every radius r > 0, the
returned point lies within r meters of the center in the local
equirectangular metric the conversion itself uses (longitude scaled by the
cosine of the latitude), which is the meters-to-degrees tolerance the claim
allows. -/
theorem c3_deterministic_jitter (stableU32 : String → ℕ) (center : ℝ × ℝ)
    (listingId : ℤ) (radiusM : ℝ)
    (hlat1 : -90 ≤ center.1) (hlat2 : center.1 ≤ 90) (hr : 0 < radiusM) :
    Spread.deterministicJitter stableU32 center listingId radiusM =
      Spread.deterministicJitter stableU32 center listingId radiusM ∧
    Spread.localDistanceM center
      (Spread.deterministicJitter stableU32 center listingId radiusM) ≤ radiusM := by
  refine ⟨rfl, ?_⟩
  have hpi := Real.pi_pos
  have hcos : 0 ≤ Real.cos (Spread.radians center.1) := by
    apply Real.cos_nonneg_of_mem_Icc
    constructor
    · unfold Spread.radians
      nlinarith
    · unfold Spread.radians
      nlinarith
  have hm0 : (0 : ℝ) ≤
      ((stableU32 (toString listingId ++ ":r") % 10000 : ℕ) : ℝ) / 10000 := by
    positivity
  have hm1 : ((stableU32 (toString listingId ++ ":r") % 10000 : ℕ) : ℝ) / 10000 ≤ 1 := by
    rw [div_le_one (by norm_num : (0 : ℝ) < 10000)]
    have hlt : stableU32 (toString listingId ++ ":r") % 10000 < 10000 :=
      Nat.mod_lt _ (by norm_num)
    calc ((stableU32 (toString listingId ++ ":r") % 10000 : ℕ) : ℝ)
        ≤ ((10000 : ℕ) : ℝ) := Nat.cast_le.mpr hlt.le
      _ = 10000 := by norm_num
  have hrr : 0 ≤ radiusM *
      Real.sqrt (((stableU32 (toString listingId ++ ":r") % 10000 : ℕ) : ℝ) / 10000) :=
    mul_nonneg hr.le (Real.sqrt_nonneg _)
  have hrle : radiusM *
      Real.sqrt (((stableU32 (toString listingId ++ ":r") % 10000 : ℕ) : ℝ) / 10000)
      ≤ radiusM := by
    calc radiusM * Real.sqrt _ ≤ radiusM * 1 :=
        mul_le_mul_of_nonneg_left (Real.sqrt_le_one.mpr hm1) hr.le
      _ = radiusM := mul_one radiusM
  exact le_trans (jitter_core center.1 center.2
    (((stableU32 (toString listingId) % 3600 : ℕ) : ℝ) / 3600 * 2 * Real.pi)
    (radiusM *
      Real.sqrt (((stableU32 (toString listingId ++ ":r") % 10000 : ℕ) : ℝ) / 10000))
    hrr hcos) hrle

/-- C3 witness: the theorem applied at a concrete Yerevan-like center, a
concrete id and the 80 meter radius, with a constant hash oracle. -/
theorem c3_witness :
    Spread.deterministicJitter (fun _ => 0) (40, 44.5) 7 80 =
      Spread.deterministicJitter (fun _ => 0) (40, 44.5) 7 80 ∧
    Spread.localDistanceM (40, 44.5)
      (Spread.deterministicJitter (fun _ => 0) (40, 44.5) 7 80) ≤ 80 :=
  c3_deterministic_jitter (fun _ => 0) (40, 44.5) 7 80 (by norm_num) (by norm_num)
    (by norm_num)

/-- Helper: haversine distances are non-negative. -/
theorem haversineM_nonneg (lat1 lon1 lat2 lon2 : ℝ) :
    0 ≤ Spread.haversineM lat1 lon1 lat2 lon2 := by
  unfold Spread.haversineM
  dsimp only
  exact mul_nonneg (by norm_num) (Real.arcsin_nonneg.mpr (Real.sqrt_nonneg _))

/-- Helper: polyline lengths are non-negative. -/
theorem polyLineLengthM_nonneg : ∀ l : List (ℝ × ℝ), 0 ≤ Spread.polyLineLengthM l := by
  intro l
  induction l with
  | nil => simp [Spread.polyLineLengthM]
  | cons a rest ih =>
    cases rest with
    | nil => simp [Spread.polyLineLengthM]
    | cons b rest2 =>
      rw [Spread.polyLineLengthM]
      exact add_nonneg (haversineM_nonneg _ _ _ _) ih

/-- Helper: the haversine function is symmetric in its two points. -/
theorem haversineM_symm (lat1 lon1 lat2 lon2 : ℝ) :
    Spread.haversineM lat1 lon1 lat2 lon2 = Spread.haversineM lat2 lon2 lat1 lon1 := by
  unfold Spread.haversineM Spread.radians
  dsimp only
  have hs : ∀ u : ℝ, Real.sin (-u) ^ 2 = Real.sin u ^ 2 := fun u => by
    rw [Real.sin_neg]
    ring
  have h1 : Real.sin ((lat1 * Real.pi / 180 - lat2 * Real.pi / 180) / 2) ^ 2 =
      Real.sin ((lat2 * Real.pi / 180 - lat1 * Real.pi / 180) / 2) ^ 2 := by
    rw [show (lat1 * Real.pi / 180 - lat2 * Real.pi / 180) / 2 =
      -((lat2 * Real.pi / 180 - lat1 * Real.pi / 180) / 2) by ring, hs]
  have h2 : Real.sin ((lon1 - lon2) * Real.pi / 180 / 2) ^ 2 =
      Real.sin ((lon2 - lon1) * Real.pi / 180 / 2) ^ 2 := by
    rw [show (lon1 - lon2) * Real.pi / 180 / 2 =
      -((lon2 - lon1) * Real.pi / 180 / 2) by ring, hs]
  rw [h1, h2]
  ring_nf

/-- Helper: along a meridian, the haversine distance is the earth radius
times the latitude difference in radians. -/
theorem haversineM_meridian (a b : ℝ) (hab : a ≤ b) (hrange : b - a ≤ 180) :
    Spread.haversineM a 0 b 0 = 6371000 * Real.pi * (b - a) / 180 := by
  have hpi := Real.pi_pos
  unfold Spread.haversineM Spread.radians
  dsimp only
  have e1 : ((0 : ℝ) - 0) * Real.pi / 180 / 2 = 0 := by ring
  rw [e1, Real.sin_zero]
  rw [show (0 : ℝ) ^ 2 = 0 by norm_num, mul_zero, add_zero]
  rw [Real.sqrt_sq_eq_abs]
  have hx0 : 0 ≤ (b * Real.pi / 180 - a * Real.pi / 180) / 2 := by nlinarith
  have hxpi2 : (b * Real.pi / 180 - a * Real.pi / 180) / 2 ≤ Real.pi / 2 := by nlinarith
  rw [abs_of_nonneg (Real.sin_nonneg_of_nonneg_of_le_pi hx0 (by linarith))]
  rw [Real.arcsin_sin (by linarith) hxpi2]
  ring

/-- Helper: the line chosen from the cumulative table, evaluated by
point_at_distance with the running offset subtracted, is the arc-length
point of the remaining lines. -/
theorem chooseArc (allLines : List (List (ℝ × ℝ))) :
    ∀ (lines : List (List (ℝ × ℝ))) (i : ℕ) (run target : ℝ),
      allLines.drop i = lines → run < target →
      target ≤ run + (lines.map Spread.polyLineLengthM).sum →
      Spread.pointAtDistance
        (allLines.getD (Spread.chooseLineGo target
          (Spread.cumTableGo i run (lines.map Spread.polyLineLengthM)) run).1 [])
        (target - (Spread.chooseLineGo target
          (Spread.cumTableGo i run (lines.map Spread.polyLineLengthM)) run).2)
      = Spread.arcPoint lines (target - run) := by
  intro lines
  induction lines with
  | nil =>
    intro i run target hdrop h1 h2
    simp only [List.map_nil, List.sum_nil, add_zero] at h2
    linarith
  | cons line rest ih =>
    intro i run target hdrop h1 h2
    simp only [List.map_cons, Spread.cumTableGo, Spread.chooseLineGo]
    by_cases hc : target ≤ run + Spread.polyLineLengthM line
    · rw [if_pos hc]
      have hget : allLines.getD i [] = line := by
        have h0 : allLines.get? (i + 0) = some line := by
          rw [← List.get?_drop, hdrop]
          rfl
        rw [List.getD_eq_get?, Nat.add_zero] at *
        rw [h0]
        rfl
      rw [hget, Spread.arcPoint, if_pos (show target - run ≤ Spread.polyLineLengthM line by
        linarith)]
    · rw [if_neg hc]
      have h1s : run + Spread.polyLineLengthM line < target := not_le.mp hc
      have h2s : target ≤ (run + Spread.polyLineLengthM line) +
          (rest.map Spread.polyLineLengthM).sum := by
        simp only [List.map_cons, List.sum_cons] at h2
        linarith
      have hdrops : allLines.drop (i + 1) = rest := by
        have hd : (allLines.drop i).drop 1 = rest := by
          rw [hdrop]
          rfl
        rw [List.drop_drop] at hd
        exact hd
      have hrec := ih (i + 1) (run + Spread.polyLineLengthM line) target hdrops h1s h2s
      rw [Spread.arcPoint,
        if_neg (show ¬ target - run ≤ Spread.polyLineLengthM line by linarith),
        show target - run - Spread.polyLineLengthM line =
          target - (run + Spread.polyLineLengthM line) by ring]
      exact hrec

/-- Helper: full characterisation of interpolate_points_along_geometry for
positive total length and positive n: it returns exactly n points, and
point i is the arc-length point at the strictly interior fractional
position (i + 1/2) / n of the total length. -/
theorem interpSpec (geom : Spread.StreetGeometry) (n : ℕ)
    (htot : 0 < Spread.totalLengthM geom) (hn : 0 < n) :
    (Spread.interpolatePointsAlongGeometry geom n).length = n ∧
    ∀ i : ℕ, i < n →
      0 < Spread.totalLengthM geom * ((i + 1 / 2 : ℝ) / n) ∧
      Spread.totalLengthM geom * ((i + 1 / 2 : ℝ) / n) < Spread.totalLengthM geom ∧
      (Spread.interpolatePointsAlongGeometry geom n).getD i (0, 0) =
        Spread.arcPoint geom.lines
          (Spread.totalLengthM geom * ((i + 1 / 2 : ℝ) / n)) := by
  have hmap : geom.lines.map (fun l => max (Spread.polyLineLengthM l) 0) =
      geom.lines.map Spread.polyLineLengthM := by
    apply List.map_congr_left
    intro a _
    exact max_eq_left (polyLineLengthM_nonneg a)
  have hts : (geom.lines.map Spread.polyLineLengthM).sum = Spread.totalLengthM geom := rfl
  have hn0 : ¬ n = 0 := Nat.pos_iff_ne_zero.mp hn
  unfold Spread.interpolatePointsAlongGeometry
  rw [if_neg hn0]
  dsimp only
  rw [hmap, hts, if_neg (not_le.mpr htot)]
  constructor
  · simp only [List.length_map, List.length_range]
  · intro i hi
    have hnR : (0 : ℝ) < n := Nat.cast_pos.mpr hn
    have htpos : 0 < Spread.totalLengthM geom * ((i + 1 / 2 : ℝ) / n) := by
      apply mul_pos htot
      apply div_pos _ hnR
      positivity
    have hi1 : (i : ℝ) + 1 ≤ n := by exact_mod_cast Nat.succ_le_of_lt hi
    have htlt : Spread.totalLengthM geom * ((i + 1 / 2 : ℝ) / n) <
        Spread.totalLengthM geom := by
      have hx1 : ((i : ℝ) + 1 / 2) / n < 1 := by
        rw [div_lt_one hnR]
        linarith
      exact mul_lt_of_lt_one_right htot hx1
    refine ⟨htpos, htlt, ?_⟩
    rw [List.getD_eq_get?, List.get?_map, List.get?_range hi]
    simp only [Option.map_some', Option.getD_some]
    rw [Spread.chooseLine]
    have happ := chooseArc geom.lines geom.lines 0 0
      (Spread.totalLengthM geom * ((i + 1 / 2 : ℝ) / n)) rfl htpos
      (by rw [zero_add]; exact le_of_lt htlt)
    rw [sub_zero] at happ
    exact happ

/-- Helper: the first counterexample segment has length 6371000·π/360. -/
theorem havSeg01 : Spread.haversineM 0 0 (1 / 2) 0 = 6371000 * Real.pi / 360 := by
  rw [haversineM_meridian 0 (1 / 2) (by norm_num) (by norm_num)]
  ring

/-- Helper: the reversed segment has the same length by symmetry. -/
theorem havSeg10 : Spread.haversineM (1 / 2) 0 0 0 = 6371000 * Real.pi / 360 := by
  rw [haversineM_symm]
  exact havSeg01

/-- Helper: the final counterexample segment has twice that length. -/
theorem havSeg02 : Spread.haversineM 0 0 1 0 = 2 * (6371000 * Real.pi / 360) := by
  rw [haversineM_meridian 0 1 (by norm_num) (by norm_num)]
  ring

/-- Helper: total polyline length of the counterexample line. -/
theorem geomCE_lineLen :
    Spread.polyLineLengthM [((0 : ℝ), (0 : ℝ)), (1 / 2, 0), (0, 0), (1, 0)] =
      4 * (6371000 * Real.pi / 360) := by
  simp only [Spread.polyLineLengthM]
  norm_num [havSeg01, havSeg10, havSeg02]
  ring

/-- Helper: total length of the counterexample geometry. -/
theorem geomCE_total :
    Spread.totalLengthM Spread.geomCE = 4 * (6371000 * Real.pi / 360) := by
  have hl : Spread.geomCE.lines = [[((0 : ℝ), (0 : ℝ)), (1 / 2, 0), (0, 0), (1, 0)]] := rfl
  unfold Spread.totalLengthM
  rw [hl]
  simp only [List.map_cons, List.map_nil, List.sum_cons, List.sum_nil, add_zero]
  exact geomCE_lineLen

/-- Helper: the mid-length arc point of the counterexample geometry is the
start vertex (0, 0), because the polyline revisits its start half way. -/
theorem geomCE_midArc :
    Spread.arcPoint Spread.geomCE.lines (2 * (6371000 * Real.pi / 360)) = (0, 0) := by
  have hq : (0 : ℝ) < 6371000 * Real.pi / 360 := by positivity
  rw [show Spread.geomCE.lines = [[((0 : ℝ), (0 : ℝ)), (1 / 2, 0), (0, 0), (1, 0)]] from rfl]
  rw [Spread.arcPoint, geomCE_lineLen]
  rw [if_pos (by linarith :
    2 * (6371000 * Real.pi / 360) ≤ 4 * (6371000 * Real.pi / 360))]
  rw [Spread.pointAtDistance, if_neg (not_le.mpr (by linarith :
    (0 : ℝ) < 2 * (6371000 * Real.pi / 360)))]
  rw [Spread.pointAtGo]
  dsimp only
  rw [havSeg01]
  rw [if_neg (not_le.mpr hq), if_neg (not_le.mpr (by linarith :
    6371000 * Real.pi / 360 < 2 * (6371000 * Real.pi / 360)))]
  rw [show 2 * (6371000 * Real.pi / 360) - 6371000 * Real.pi / 360 =
    6371000 * Real.pi / 360 by ring]
  rw [Spread.pointAtGo]
  dsimp only
  rw [havSeg10]
  rw [if_neg (not_le.mpr hq), if_pos (le_refl _)]
  rw [div_self (ne_of_gt hq)]
  norm_num

/-- C4 counterexample: the claim that no returned point coincides exactly
with the start or end vertex fails. The counterexample geometry has
positive total length, yet interpolating a single point returns exactly
the start vertex (0, 0) of the geometry, because the polyline revisits its
start vertex at the half-length arc position. -/
theorem c4_counterexample :
    0 < Spread.totalLengthM Spread.geomCE ∧
    Spread.interpolatePointsAlongGeometry Spread.geomCE 1 = [(0, 0)] ∧
    (Spread.geomCE.lines.getD 0 []).headD (1, 1) = (0, 0) := by
  have htot : 0 < Spread.totalLengthM Spread.geomCE := by
    rw [geomCE_total]
    positivity
  obtain ⟨hlen, hpts⟩ := interpSpec Spread.geomCE 1 htot one_pos
  obtain ⟨a, ha⟩ := List.length_eq_one.mp hlen
  have h0 := (hpts 0 one_pos).2.2
  rw [ha] at h0
  have htarg : Spread.totalLengthM Spread.geomCE *
      ((((0 : ℕ) : ℝ) + 1 / 2) / ((1 : ℕ) : ℝ)) = 2 * (6371000 * Real.pi / 360) := by
    rw [geomCE_total]
    push_cast
    ring
  rw [htarg, geomCE_midArc, List.getD_cons_zero] at h0
  refine ⟨htot, ?_, rfl⟩
  rw [ha, h0]

/-- C4 (amended): for every street geometry of positive total length L and
every n > 0, interpolate_points_along_geometry returns exactly n points,
and point i is the arc-length point of the combined geometry at target
L·(i + 1/2)/n, a strictly interior position (0 < target < L); the original
claim that no point ever coincides with the start or end vertex is dropped,
since a self-revisiting polyline refutes it. -/
theorem c4_interpolate (geom : Spread.StreetGeometry) (n : ℕ)
    (htot : 0 < Spread.totalLengthM geom) (hn : 0 < n) :
    (Spread.interpolatePointsAlongGeometry geom n).length = n ∧
    ∀ i : ℕ, i < n →
      0 < Spread.totalLengthM geom * ((i + 1 / 2 : ℝ) / n) ∧
      Spread.totalLengthM geom * ((i + 1 / 2 : ℝ) / n) < Spread.totalLengthM geom ∧
      (Spread.interpolatePointsAlongGeometry geom n).getD i (0, 0) =
        Spread.arcPoint geom.lines
          (Spread.totalLengthM geom * ((i + 1 / 2 : ℝ) / n)) :=
  interpSpec geom n htot hn

/-- C4 witness: the amended theorem applied to the concrete counterexample
geometry with n = 2, each hypothesis discharged concretely. -/
theorem c4_witness :
    (0 < Spread.totalLengthM Spread.geomCE ∧ (0 : ℕ) < 2) ∧
    ((Spread.interpolatePointsAlongGeometry Spread.geomCE 2).length = 2 ∧
     ∀ i : ℕ, i < 2 →
       0 < Spread.totalLengthM Spread.geomCE * ((i + 1 / 2 : ℝ) / ((2 : ℕ) : ℝ)) ∧
       Spread.totalLengthM Spread.geomCE * ((i + 1 / 2 : ℝ) / ((2 : ℕ) : ℝ)) <
         Spread.totalLengthM Spread.geomCE ∧
       (Spread.interpolatePointsAlongGeometry Spread.geomCE 2).getD i (0, 0) =
         Spread.arcPoint Spread.geomCE.lines
           (Spread.totalLengthM Spread.geomCE * ((i + 1 / 2 : ℝ) / ((2 : ℕ) : ℝ)))) := by
  have htot : 0 < Spread.totalLengthM Spread.geomCE := by
    rw [geomCE_total]
    positivity
  exact ⟨⟨htot, by norm_num⟩, c4_interpolate Spread.geomCE 2 htot (by norm_num)⟩

/-- Helper: rounding an integer-valued rational returns that integer. -/
theorem rnd_intCast (m : ℤ) : Iso.rnd (m : ℚ) = m := by
  simp only [Iso.rnd, Int.floor_intCast, sub_self]
  norm_num

/-- Helper: round6 fixes integer-valued rationals. -/
theorem round6_intCast (m : ℤ) : Iso.round6 (m : ℚ) = m := by
  unfold Iso.round6
  rw [show ((m : ℚ) * 1000000) = ((m * 1000000 : ℤ) : ℚ) by push_cast; ring]
  rw [rnd_intCast]
  push_cast
  field_simp

/-- Helper: the sine of a nonzero angle of magnitude below π is nonzero. -/
theorem sin_ne_zero_of_small (x : ℝ) (h0 : x ≠ 0) (hpi : |x| < Real.pi) :
    Real.sin x ≠ 0 := by
  have h1 : 0 < Real.sin |x| := Real.sin_pos_of_pos_of_lt_pi (abs_pos.mpr h0) hpi
  rcases abs_cases x with ⟨he, _⟩ | ⟨he, _⟩
  · rw [he] at h1
    exact ne_of_gt h1
  · rw [he, Real.sin_neg] at h1
    have h2 : Real.sin x < 0 := by linarith
    exact ne_of_lt h2

/-- Helper: the haversine distance between two points with distinct
coordinates is strictly positive when both latitudes are strictly inside
(-90, 90) and both longitudes lie in the standard (-180, 180] range. -/
theorem haversineM_pos (a1 a2 b1 b2 : ℚ) (hne : a1 ≠ b1 ∨ a2 ≠ b2)
    (ha1 : (-90 : ℚ) < a1) (ha2 : a1 < 90) (hb1 : (-90 : ℚ) < b1) (hb2 : b1 < 90)
    (ha3 : (-180 : ℚ) < a2) (ha4 : a2 ≤ 180) (hb3 : (-180 : ℚ) < b2) (hb4 : b2 ≤ 180) :
    0 < Spread.haversineM (a1 : ℝ) (a2 : ℝ) (b1 : ℝ) (b2 : ℝ) := by
  have hpi := Real.pi_pos
  have ha1R : (-90 : ℝ) < (a1 : ℝ) := by exact_mod_cast ha1
  have ha2R : ((a1 : ℝ)) < 90 := by exact_mod_cast ha2
  have hb1R : (-90 : ℝ) < (b1 : ℝ) := by exact_mod_cast hb1
  have hb2R : ((b1 : ℝ)) < 90 := by exact_mod_cast hb2
  have ha3R : (-180 : ℝ) < (a2 : ℝ) := by exact_mod_cast ha3
  have ha4R : ((a2 : ℝ)) ≤ 180 := by exact_mod_cast ha4
  have hb3R : (-180 : ℝ) < (b2 : ℝ) := by exact_mod_cast hb3
  have hb4R : ((b2 : ℝ)) ≤ 180 := by exact_mod_cast hb4
  unfold Spread.haversineM Spread.radians
  dsimp only
  apply mul_pos (by norm_num : (0 : ℝ) < 2 * 6371000)
  rw [Real.arcsin_pos, Real.sqrt_pos]
  have hc1 : 0 < Real.cos ((a1 : ℝ) * Real.pi / 180) := by
    apply Real.cos_pos_of_mem_Ioo
    rw [Set.mem_Ioo]
    constructor
    · nlinarith [mul_pos (show (0 : ℝ) < (a1 : ℝ) + 90 by linarith) hpi]
    · nlinarith [mul_pos (show (0 : ℝ) < 90 - (a1 : ℝ) by linarith) hpi]
  have hc2 : 0 < Real.cos ((b1 : ℝ) * Real.pi / 180) := by
    apply Real.cos_pos_of_mem_Ioo
    rw [Set.mem_Ioo]
    constructor
    · nlinarith [mul_pos (show (0 : ℝ) < (b1 : ℝ) + 90 by linarith) hpi]
    · nlinarith [mul_pos (show (0 : ℝ) < 90 - (b1 : ℝ) by linarith) hpi]
  by_cases hlat : a1 = b1
  · have hlon : a2 ≠ b2 := hne.resolve_left (not_not_intro hlat)
    have hlatR : ((a1 : ℝ)) = (b1 : ℝ) := by exact_mod_cast hlat
    rw [show ((b1 : ℝ) * Real.pi / 180 - (a1 : ℝ) * Real.pi / 180) / 2 = 0 by
      rw [hlatR]; ring]
    rw [Real.sin_zero, show (0 : ℝ) ^ 2 = 0 by norm_num, zero_add]
    apply mul_pos (mul_pos hc1 hc2)
    apply pow_two_pos_of_ne_zero
    apply sin_ne_zero_of_small
    · have hdq : ((b2 : ℝ)) - (a2 : ℝ) ≠ 0 := by
        have hx : ((b2 : ℝ)) ≠ (a2 : ℝ) := by exact_mod_cast hlon.symm
        exact sub_ne_zero.mpr hx
      exact div_ne_zero (div_ne_zero (mul_ne_zero hdq (ne_of_gt hpi)) (by norm_num))
        (by norm_num)
    · rw [abs_lt]
      constructor
      · nlinarith [mul_pos (show (0 : ℝ) < (b2 : ℝ) - (a2 : ℝ) + 360 by linarith) hpi]
      · nlinarith [mul_pos (show (0 : ℝ) < 360 - ((b2 : ℝ) - (a2 : ℝ)) by linarith) hpi]
  · have hlatR : ((a1 : ℝ)) ≠ (b1 : ℝ) := fun h => hlat (by exact_mod_cast h)
    rw [show ((b1 : ℝ) * Real.pi / 180 - (a1 : ℝ) * Real.pi / 180) / 2 =
      ((b1 : ℝ) - (a1 : ℝ)) * Real.pi / 180 / 2 by ring]
    apply add_pos_of_pos_of_nonneg
    · apply pow_two_pos_of_ne_zero
      apply sin_ne_zero_of_small
      · have hdq : ((b1 : ℝ)) - (a1 : ℝ) ≠ 0 := sub_ne_zero.mpr (Ne.symm hlatR)
        exact div_ne_zero (div_ne_zero (mul_ne_zero hdq (ne_of_gt hpi)) (by norm_num))
          (by norm_num)
      · rw [abs_lt]
        constructor
        · nlinarith [mul_pos (show (0 : ℝ) < (b1 : ℝ) - (a1 : ℝ) + 180 by linarith) hpi]
        · nlinarith [mul_pos (show (0 : ℝ) < 180 - ((b1 : ℝ) - (a1 : ℝ)) by linarith) hpi]
    · exact mul_nonneg (mul_nonneg hc1.le hc2.le) (sq_nonneg _)

/-- Helper: every directed segment edge has its reverse with equal weight. -/
theorem segEdges_symm : ∀ (pts : List (ℚ × ℚ)) (a b : ℚ × ℚ) (w : ℝ),
    (a, b, w) ∈ Iso.segEdges pts → (b, a, w) ∈ Iso.segEdges pts := by
  intro pts
  induction pts with
  | nil =>
    intro a b w h
    simp [Iso.segEdges] at h
  | cons p rest ih =>
    cases rest with
    | nil =>
      intro a b w h
      simp [Iso.segEdges] at h
    | cons q rest2 =>
      intro a b w h
      by_cases hpq : p = q
      · rw [Iso.segEdges, if_pos hpq, List.nil_append] at h
        rw [Iso.segEdges, if_pos hpq, List.nil_append]
        exact ih a b w h
      · rw [Iso.segEdges, if_neg hpq] at h
        rw [Iso.segEdges, if_neg hpq]
        dsimp only at h ⊢
        rw [List.mem_append] at h ⊢
        rcases h with h | h
        · left
          simp only [List.mem_cons, List.not_mem_nil, or_false] at h ⊢
          rcases h with h | h
          · right
            simp only [Prod.mk.injEq] at h
            obtain ⟨h1, h2, h3⟩ := h
            subst h1
            subst h2
            subst h3
            rfl
          · left
            simp only [Prod.mk.injEq] at h
            obtain ⟨h1, h2, h3⟩ := h
            subst h1
            subst h2
            subst h3
            rfl
        · right
          exact ih a b w h

/-- Helper: every directed segment edge joins distinct normalised vertices
and carries the haversine walking time of its endpoints. -/
theorem segEdges_mem : ∀ (pts : List (ℚ × ℚ)) (a b : ℚ × ℚ) (w : ℝ),
    (a, b, w) ∈ Iso.segEdges pts →
    a ≠ b ∧ w = Spread.haversineM (a.1 : ℝ) (a.2 : ℝ) (b.1 : ℝ) (b.2 : ℝ) /
      Iso.WALK_SPEED_MPS := by
  intro pts
  induction pts with
  | nil =>
    intro a b w h
    simp [Iso.segEdges] at h
  | cons p rest ih =>
    cases rest with
    | nil =>
      intro a b w h
      simp [Iso.segEdges] at h
    | cons q rest2 =>
      intro a b w h
      by_cases hpq : p = q
      · rw [Iso.segEdges, if_pos hpq, List.nil_append] at h
        exact ih a b w h
      · rw [Iso.segEdges, if_neg hpq] at h
        dsimp only at h
        rw [List.mem_append] at h
        rcases h with h | h
        · simp only [List.mem_cons, List.not_mem_nil, or_false] at h
          rcases h with h | h
          · simp only [Prod.mk.injEq] at h
            obtain ⟨h1, h2, h3⟩ := h
            subst h1
            subst h2
            subst h3
            exact ⟨hpq, rfl⟩
          · simp only [Prod.mk.injEq] at h
            obtain ⟨h1, h2, h3⟩ := h
            subst h1
            subst h2
            subst h3
            refine ⟨Ne.symm hpq, ?_⟩
            rw [haversineM_symm]
        · exact ih a b w h

/-- Helper: membership in the built edge list means membership in the
segment edges of some way element with at least two vertices. -/
theorem buildGraphEdges_mem (data : List Iso.OElement)
    (p : (ℚ × ℚ) × (ℚ × ℚ) × ℝ) :
    p ∈ Iso.buildGraphEdges data ↔
      ∃ e, e ∈ data ∧ e.typ = "way" ∧ 2 ≤ e.geometry.length ∧
        p ∈ Iso.segEdges (Iso.wayPts e) := by
  induction data with
  | nil => simp [Iso.buildGraphEdges]
  | cons e rest ih =>
    rw [Iso.buildGraphEdges, List.mem_append, ih]
    constructor
    · rintro (h | ⟨e2, he2, h1, h2, h3⟩)
      · by_cases hw : e.typ = "way"
        · rw [if_pos hw] at h
          by_cases hl : 2 ≤ e.geometry.length
          · rw [if_pos hl] at h
            exact ⟨e, List.mem_cons_self e rest, hw, hl, h⟩
          · rw [if_neg hl] at h
            simp at h
        · rw [if_neg hw] at h
          simp at h
      · exact ⟨e2, List.mem_cons_of_mem e he2, h1, h2, h3⟩
    · rintro ⟨e2, he2, h1, h2, h3⟩
      rcases List.mem_cons.mp he2 with rfl | hmem
      · left
        rw [if_pos h1, if_pos h2]
        exact h3
      · right
        exact ⟨e2, hmem, h1, h2, h3⟩

/-- Helper: two distinct points on the latitude-90 circle are at haversine
distance zero, since the longitude term is scaled by cos(π/2) = 0. -/
theorem havPole : Spread.haversineM (90 : ℝ) 0 90 1 = 0 := by
  unfold Spread.haversineM Spread.radians
  dsimp only
  rw [show (90 : ℝ) * Real.pi / 180 = Real.pi / 2 by ring]
  rw [Real.cos_pi_div_two]
  rw [show (Real.pi / 2 - Real.pi / 2) / 2 = 0 by ring]
  rw [Real.sin_zero]
  norm_num [Real.sqrt_zero, Real.arcsin_zero]

/-- Helper: the edge list built from the pole way consists of one edge of
weight zero in both directions. -/
theorem poleData_edges :
    Iso.buildGraphEdges Iso.poleData =
      [(((90 : ℚ), (0 : ℚ)), ((90 : ℚ), (1 : ℚ)), (0 : ℝ)),
       (((90 : ℚ), (1 : ℚ)), ((90 : ℚ), (0 : ℚ)), (0 : ℝ))] := by
  have h90 : Iso.round6 (90 : ℚ) = 90 := by exact_mod_cast round6_intCast 90
  have h0 : Iso.round6 (0 : ℚ) = 0 := by exact_mod_cast round6_intCast 0
  have h1 : Iso.round6 (1 : ℚ) = 1 := by exact_mod_cast round6_intCast 1
  have hpts : Iso.wayPts ⟨"way", [(90, 0), (90, 1)]⟩ =
      [((90 : ℚ), (0 : ℚ)), ((90 : ℚ), (1 : ℚ))] := by
    simp [Iso.wayPts, h90, h0, h1]
  have hhav : Spread.haversineM ((90 : ℚ) : ℝ) ((0 : ℚ) : ℝ) ((90 : ℚ) : ℝ) ((1 : ℚ) : ℝ)
      = 0 := by
    rw [show ((90 : ℚ) : ℝ) = 90 by norm_num, show ((0 : ℚ) : ℝ) = 0 by norm_num,
      show ((1 : ℚ) : ℝ) = 1 by norm_num]
    exact havPole
  rw [show Iso.poleData = [⟨"way", [(90, 0), (90, 1)]⟩] from rfl]
  rw [Iso.buildGraphEdges, Iso.buildGraphEdges]
  rw [if_pos rfl]
  rw [if_pos (by simp : 2 ≤ (([(90, 0), (90, 1)] : List (ℚ × ℚ))).length)]
  rw [hpts]
  rw [Iso.segEdges]
  rw [if_neg (by simp : ¬((90 : ℚ), (0 : ℚ)) = ((90 : ℚ), (1 : ℚ)))]
  dsimp only
  rw [hhav]
  simp [Iso.segEdges, zero_div]

/-- C10 counterexample: the claim that no zero-weight edge is ever created
fails. The way joining (90, 0) and (90, 1) has endpoints that stay
distinct after rounding to six decimals, yet its inserted edge has weight
exactly zero because the haversine distance degenerates at the pole. -/
theorem c10_counterexample :
    (((90 : ℚ), (0 : ℚ)), ((90 : ℚ), (1 : ℚ)), (0 : ℝ)) ∈
      Iso.buildGraphEdges Iso.poleData ∧
    ((90 : ℚ), (0 : ℚ)) ≠ ((90 : ℚ), (1 : ℚ)) := by
  rw [poleData_edges]
  exact ⟨List.mem_cons_self _ _, by simp⟩

/-- C10 (amended): every edge inserted by build_graph_from_overpass has
its reverse edge inserted with the same weight, joins two vertices that
are distinct after rounding, and has non-negative weight; the weight is
moreover strictly positive whenever both endpoints have latitude strictly
inside (-90, 90) and longitude in (-180, 180], while the original claim
that a zero weight can never occur is dropped (it fails at the poles). -/
theorem c10_graph (data : List Iso.OElement) :
    (∀ a b : ℚ × ℚ, ∀ w : ℝ, (a, b, w) ∈ Iso.buildGraphEdges data →
      (b, a, w) ∈ Iso.buildGraphEdges data ∧ a ≠ b ∧ 0 ≤ w) ∧
    (∀ a b : ℚ × ℚ, ∀ w : ℝ, (a, b, w) ∈ Iso.buildGraphEdges data →
      (-90 : ℚ) < a.1 → a.1 < 90 → (-90 : ℚ) < b.1 → b.1 < 90 →
      (-180 : ℚ) < a.2 → a.2 ≤ 180 → (-180 : ℚ) < b.2 → b.2 ≤ 180 → 0 < w) := by
  constructor
  · intro a b w hmem
    obtain ⟨e, he, h1, h2, h3⟩ := (buildGraphEdges_mem data (a, b, w)).mp hmem
    obtain ⟨hne, hw⟩ := segEdges_mem (Iso.wayPts e) a b w h3
    refine ⟨?_, hne, ?_⟩
    · exact (buildGraphEdges_mem data (b, a, w)).mpr
        ⟨e, he, h1, h2, segEdges_symm _ a b w h3⟩
    · rw [hw]
      apply div_nonneg (haversineM_nonneg _ _ _ _)
      norm_num [Iso.WALK_SPEED_MPS]
  · intro a b w hmem ha1 ha2 hb1 hb2 ha3 ha4 hb3 hb4
    obtain ⟨e, he, h1, h2, h3⟩ := (buildGraphEdges_mem data (a, b, w)).mp hmem
    obtain ⟨hne, hw⟩ := segEdges_mem (Iso.wayPts e) a b w h3
    rw [hw]
    apply div_pos
    · apply haversineM_pos a.1 a.2 b.1 b.2 ?_ ha1 ha2 hb1 hb2 ha3 ha4 hb3 hb4
      by_cases hc : a.1 = b.1
      · right
        intro hc2
        exact hne (Prod.ext hc hc2)
      · left
        exact hc
    · norm_num [Iso.WALK_SPEED_MPS]

/-- Helper: the edge list built from the ordinary way. -/
theorem goodData_edges :
    Iso.buildGraphEdges Iso.goodData =
      [(((40 : ℚ), (44 : ℚ)), ((40 : ℚ), (45 : ℚ)),
          Spread.haversineM ((40 : ℚ) : ℝ) ((44 : ℚ) : ℝ) ((40 : ℚ) : ℝ) ((45 : ℚ) : ℝ) /
            Iso.WALK_SPEED_MPS),
       (((40 : ℚ), (45 : ℚ)), ((40 : ℚ), (44 : ℚ)),
          Spread.haversineM ((40 : ℚ) : ℝ) ((44 : ℚ) : ℝ) ((40 : ℚ) : ℝ) ((45 : ℚ) : ℝ) /
            Iso.WALK_SPEED_MPS)] := by
  have h40 : Iso.round6 (40 : ℚ) = 40 := by exact_mod_cast round6_intCast 40
  have h44 : Iso.round6 (44 : ℚ) = 44 := by exact_mod_cast round6_intCast 44
  have h45 : Iso.round6 (45 : ℚ) = 45 := by exact_mod_cast round6_intCast 45
  have hpts : Iso.wayPts ⟨"way", [(40, 44), (40, 45)]⟩ =
      [((40 : ℚ), (44 : ℚ)), ((40 : ℚ), (45 : ℚ))] := by
    simp [Iso.wayPts, h40, h44, h45]
  rw [show Iso.goodData = [⟨"way", [(40, 44), (40, 45)]⟩] from rfl]
  rw [Iso.buildGraphEdges, Iso.buildGraphEdges]
  rw [if_pos rfl]
  rw [if_pos (by simp : 2 ≤ (([(40, 44), (40, 45)] : List (ℚ × ℚ))).length)]
  rw [hpts]
  rw [Iso.segEdges]
  rw [if_neg (by simp : ¬((40 : ℚ), (44 : ℚ)) = ((40 : ℚ), (45 : ℚ)))]
  simp [Iso.segEdges]

/-- C10 witness: the amended theorem applied to the concrete one-way
response, with the membership hypothesis discharged on its computed edge
list and the coordinate bounds discharged numerically. -/
theorem c10_witness :
    ((((40 : ℚ), (45 : ℚ)), ((40 : ℚ), (44 : ℚ)),
        Spread.haversineM ((40 : ℚ) : ℝ) ((44 : ℚ) : ℝ) ((40 : ℚ) : ℝ) ((45 : ℚ) : ℝ) /
          Iso.WALK_SPEED_MPS) ∈ Iso.buildGraphEdges Iso.goodData) ∧
    ((40 : ℚ), (44 : ℚ)) ≠ ((40 : ℚ), (45 : ℚ)) ∧
    0 < Spread.haversineM ((40 : ℚ) : ℝ) ((44 : ℚ) : ℝ) ((40 : ℚ) : ℝ) ((45 : ℚ) : ℝ) /
      Iso.WALK_SPEED_MPS := by
  have hmem : (((40 : ℚ), (44 : ℚ)), ((40 : ℚ), (45 : ℚ)),
      Spread.haversineM ((40 : ℚ) : ℝ) ((44 : ℚ) : ℝ) ((40 : ℚ) : ℝ) ((45 : ℚ) : ℝ) /
        Iso.WALK_SPEED_MPS) ∈ Iso.buildGraphEdges Iso.goodData := by
    rw [goodData_edges]
    exact List.mem_cons_self _ _
  have hsym := (c10_graph Iso.goodData).1 _ _ _ hmem
  have hposw := (c10_graph Iso.goodData).2 ((40 : ℚ), (44 : ℚ)) ((40 : ℚ), (45 : ℚ)) _
    hmem (by norm_num) (by norm_num) (by norm_num) (by norm_num) (by norm_num)
    (by norm_num) (by norm_num) (by norm_num)
  exact ⟨hsym.1, hsym.2.1, hposw⟩

/-- Helper: run_spread keeps the length of the listing list. -/
theorem runSpread_length (geomOf : String → ℝ × ℝ → Option Spread.StreetGeometry)
    (hash : String → ℕ) (L : List Spread.SListing) :
    (Spread.runSpread geomOf hash L).length = L.length := by
  simp [Spread.runSpread]

/-- Helper: reading position i of the run_spread output gives the
denotational per-position value. -/
theorem runSpread_getD (geomOf : String → ℝ × ℝ → Option Spread.StreetGeometry)
    (hash : String → ℕ) (L : List Spread.SListing) (i : ℕ) (hi : i < L.length) :
    (Spread.runSpread geomOf hash L).getD i Spread.dummy =
      Spread.spreadValue geomOf hash L i := by
  unfold Spread.runSpread
  rw [List.getD_eq_get?, List.get?_map, List.get?_range hi]
  rfl

/-- Helper: a listing with a missing coordinate is left unchanged. -/
theorem spreadValue_eq_none (geomOf : String → ℝ × ℝ → Option Spread.StreetGeometry)
    (hash : String → ℕ) (L : List Spread.SListing) (i : ℕ)
    (h : (L.getD i Spread.dummy).lat = none ∨ (L.getD i Spread.dummy).lng = none) :
    Spread.spreadValue geomOf hash L i = L.getD i Spread.dummy := by
  unfold Spread.spreadValue
  dsimp only
  rcases h with h | h
  · rw [h]
  · rw [h]
    cases (L.getD i Spread.dummy).lat <;> rfl

/-- Helper: a listing with coordinates whose street guard holds is
processed by the street branch. -/
theorem spreadValue_eq_street (geomOf : String → ℝ × ℝ → Option Spread.StreetGeometry)
    (hash : String → ℕ) (L : List Spread.SListing) (i : ℕ) (la ln : ℝ)
    (hla : (L.getD i Spread.dummy).lat = some la)
    (hln : (L.getD i Spread.dummy).lng = some ln)
    (h1 : Spread.streetKey (L.getD i Spread.dummy) ≠ "" ∧
      Spread.inStreetSetB (Spread.precStr (L.getD i Spread.dummy)) = true) :
    Spread.spreadValue geomOf hash L i =
      Spread.streetBranch geomOf hash L i (L.getD i Spread.dummy)
        (Spread.streetKey (L.getD i Spread.dummy)) := by
  unfold Spread.spreadValue
  dsimp only
  rw [hla, hln]
  dsimp only
  rw [if_pos h1]

/-- Helper: a listing with coordinates failing the street guard but with
district precision is processed by the district branch. -/
theorem spreadValue_eq_district (geomOf : String → ℝ × ℝ → Option Spread.StreetGeometry)
    (hash : String → ℕ) (L : List Spread.SListing) (i : ℕ) (la ln : ℝ)
    (hla : (L.getD i Spread.dummy).lat = some la)
    (hln : (L.getD i Spread.dummy).lng = some ln)
    (h1 : ¬ (Spread.streetKey (L.getD i Spread.dummy) ≠ "" ∧
      Spread.inStreetSetB (Spread.precStr (L.getD i Spread.dummy)) = true))
    (h2 : Spread.precStr (L.getD i Spread.dummy) = "district") :
    Spread.spreadValue geomOf hash L i =
      Spread.districtBranch hash L (L.getD i Spread.dummy) la ln := by
  unfold Spread.spreadValue
  dsimp only
  rw [hla, hln]
  dsimp only
  rw [if_neg h1, if_pos h2]

/-- Helper: a listing with coordinates failing both guards is unchanged. -/
theorem spreadValue_eq_skip (geomOf : String → ℝ × ℝ → Option Spread.StreetGeometry)
    (hash : String → ℕ) (L : List Spread.SListing) (i : ℕ) (la ln : ℝ)
    (hla : (L.getD i Spread.dummy).lat = some la)
    (hln : (L.getD i Spread.dummy).lng = some ln)
    (h1 : ¬ (Spread.streetKey (L.getD i Spread.dummy) ≠ "" ∧
      Spread.inStreetSetB (Spread.precStr (L.getD i Spread.dummy)) = true))
    (h2 : Spread.precStr (L.getD i Spread.dummy) ≠ "district") :
    Spread.spreadValue geomOf hash L i = L.getD i Spread.dummy := by
  unfold Spread.spreadValue
  dsimp only
  rw [hla, hln]
  dsimp only
  rw [if_neg h1, if_neg h2]

/-- Helper: a street group of fewer than two members is left unchanged. -/
theorem streetBranch_small (geomOf : String → ℝ × ℝ → Option Spread.StreetGeometry)
    (hash : String → ℕ) (L : List Spread.SListing) (i : ℕ) (l : Spread.SListing)
    (s : String) (hlen : ¬ 2 ≤ (Spread.streetGroup L s).length) :
    Spread.streetBranch geomOf hash L i l s = l := by
  unfold Spread.streetBranch
  dsimp only
  rw [if_neg hlen]

/-- Helper: an area-like street group of two or more members jitters 300m
around the first member and tags district_jitter. -/
theorem streetBranch_area (geomOf : String → ℝ × ℝ → Option Spread.StreetGeometry)
    (hash : String → ℕ) (L : List Spread.SListing) (i : ℕ) (l : Spread.SListing)
    (s : String) (hlen : 2 ≤ (Spread.streetGroup L s).length)
    (harea : Spread.isAreaLike s = true) :
    Spread.streetBranch geomOf hash L i l s =
      Spread.jitterUpd hash
        ((L.getD ((Spread.streetGroup L s).headD 0) Spread.dummy).lat.getD 0,
         (L.getD ((Spread.streetGroup L s).headD 0) Spread.dummy).lng.getD 0)
        l 300 "district_jitter" := by
  unfold Spread.streetBranch
  dsimp only
  rw [if_pos hlen, if_pos harea]

/-- Helper: a non-area street group with no geometry jitters 80m around
the mean coordinate and tags street_jitter. -/
theorem streetBranch_nogeom (geomOf : String → ℝ × ℝ → Option Spread.StreetGeometry)
    (hash : String → ℕ) (L : List Spread.SListing) (i : ℕ) (l : Spread.SListing)
    (s : String) (hlen : 2 ≤ (Spread.streetGroup L s).length)
    (harea : Spread.isAreaLike s = false)
    (hgeo : geomOf s (Spread.refCenter L (Spread.streetGroup L s)) = none) :
    Spread.streetBranch geomOf hash L i l s =
      Spread.jitterUpd hash (Spread.refCenter L (Spread.streetGroup L s)) l 80
        "street_jitter" := by
  unfold Spread.streetBranch
  dsimp only
  rw [if_pos hlen, if_neg (by rw [harea]; exact Bool.false_ne_true), hgeo]

/-- Helper: a non-area street group with geometry and a matching point
count spreads the listing to its id-order point and tags street_spread. -/
theorem streetBranch_geom (geomOf : String → ℝ × ℝ → Option Spread.StreetGeometry)
    (hash : String → ℕ) (L : List Spread.SListing) (i : ℕ) (l : Spread.SListing)
    (s : String) (g : Spread.StreetGeometry)
    (hlen : 2 ≤ (Spread.streetGroup L s).length)
    (harea : Spread.isAreaLike s = false)
    (hgeo : geomOf s (Spread.refCenter L (Spread.streetGroup L s)) = some g)
    (hpts : (Spread.interpolatePointsAlongGeometry g
      (Spread.streetGroup L s).length).length = (Spread.streetGroup L s).length) :
    Spread.streetBranch geomOf hash L i l s =
      { l with
        lat := some ((Spread.interpolatePointsAlongGeometry g
          (Spread.streetGroup L s).length).getD
            ((Spread.sortById (Spread.idKey L) (Spread.streetGroup L s)).indexOf i)
            (0, 0)).1,
        lng := some ((Spread.interpolatePointsAlongGeometry g
          (Spread.streetGroup L s).length).getD
            ((Spread.sortById (Spread.idKey L) (Spread.streetGroup L s)).indexOf i)
            (0, 0)).2,
        precision := some "street_spread" } := by
  unfold Spread.streetBranch
  dsimp only
  rw [if_pos hlen, if_neg (by rw [harea]; exact Bool.false_ne_true), hgeo]
  dsimp only
  rw [if_pos hpts]

/-- Helper: a non-area street group with geometry but a mismatched point
count leaves the listing unchanged. -/
theorem streetBranch_mismatch (geomOf : String → ℝ × ℝ → Option Spread.StreetGeometry)
    (hash : String → ℕ) (L : List Spread.SListing) (i : ℕ) (l : Spread.SListing)
    (s : String) (g : Spread.StreetGeometry)
    (hlen : 2 ≤ (Spread.streetGroup L s).length)
    (harea : Spread.isAreaLike s = false)
    (hgeo : geomOf s (Spread.refCenter L (Spread.streetGroup L s)) = some g)
    (hpts : ¬ (Spread.interpolatePointsAlongGeometry g
      (Spread.streetGroup L s).length).length = (Spread.streetGroup L s).length) :
    Spread.streetBranch geomOf hash L i l s = l := by
  unfold Spread.streetBranch
  dsimp only
  rw [if_pos hlen, if_neg (by rw [harea]; exact Bool.false_ne_true), hgeo]
  dsimp only
  rw [if_neg hpts]

/-- Helper: a district stack of fewer than two members is unchanged. -/
theorem districtBranch_small (hash : String → ℕ) (L : List Spread.SListing)
    (l : Spread.SListing) (la ln : ℝ)
    (hlen : ¬ 2 ≤ (Spread.districtGroup L l.lat l.lng).length) :
    Spread.districtBranch hash L l la ln = l := by
  unfold Spread.districtBranch
  rw [if_neg hlen]

/-- Helper: a district stack of two or more members jitters 400m around
the shared coordinate and tags district_jitter. -/
theorem districtBranch_stack (hash : String → ℕ) (L : List Spread.SListing)
    (l : Spread.SListing) (la ln : ℝ)
    (hlen : 2 ≤ (Spread.districtGroup L l.lat l.lng).length) :
    Spread.districtBranch hash L l la ln =
      Spread.jitterUpd hash (la, ln) l 400 "district_jitter" := by
  unfold Spread.districtBranch
  rw [if_pos hlen]

/-- Helper: every per-position outcome of run_spread is either the
unchanged listing or a coordinate update tagged street_jitter,
street_spread or district_jitter, with the guard facts that produced it. -/
theorem spreadValue_out (geomOf : String → ℝ × ℝ → Option Spread.StreetGeometry)
    (hash : String → ℕ) (L : List Spread.SListing) (i : ℕ) :
    Spread.spreadValue geomOf hash L i = L.getD i Spread.dummy ∨
    ∃ p : ℝ × ℝ, ∃ pr : String,
      Spread.spreadValue geomOf hash L i =
        { L.getD i Spread.dummy with
            lat := some p.1, lng := some p.2, precision := some pr } ∧
      (L.getD i Spread.dummy).lat.isNone = false ∧
      (L.getD i Spread.dummy).lng.isNone = false ∧
      ((pr = "street_jitter" ∨ pr = "street_spread") ∧
         Spread.inStreetSetB (Spread.precStr (L.getD i Spread.dummy)) = true ∧
         Spread.isAreaLike (Spread.streetKey (L.getD i Spread.dummy)) = false ∨
       pr = "district_jitter" ∧
         (Spread.precStr (L.getD i Spread.dummy) = "district" ∨
          Spread.isAreaLike (Spread.streetKey (L.getD i Spread.dummy)) = true ∧
            Spread.inStreetSetB (Spread.precStr (L.getD i Spread.dummy)) = true)) := by
  cases hla : (L.getD i Spread.dummy).lat with
  | none => exact Or.inl (spreadValue_eq_none geomOf hash L i (Or.inl hla))
  | some la =>
    cases hln : (L.getD i Spread.dummy).lng with
    | none => exact Or.inl (spreadValue_eq_none geomOf hash L i (Or.inr hln))
    | some ln =>
      by_cases h1 : Spread.streetKey (L.getD i Spread.dummy) ≠ "" ∧
          Spread.inStreetSetB (Spread.precStr (L.getD i Spread.dummy)) = true
      · rw [spreadValue_eq_street geomOf hash L i la ln hla hln h1]
        by_cases hlen : 2 ≤
            (Spread.streetGroup L (Spread.streetKey (L.getD i Spread.dummy))).length
        · cases harea : Spread.isAreaLike (Spread.streetKey (L.getD i Spread.dummy)) with
          | true =>
            rw [streetBranch_area geomOf hash L i _ _ hlen harea]
            exact Or.inr ⟨_, "district_jitter", rfl, rfl, rfl,
              Or.inr ⟨rfl, Or.inr ⟨rfl, h1.2⟩⟩⟩
          | false =>
            cases hgeo : geomOf (Spread.streetKey (L.getD i Spread.dummy))
                (Spread.refCenter L
                  (Spread.streetGroup L (Spread.streetKey (L.getD i Spread.dummy)))) with
            | none =>
              rw [streetBranch_nogeom geomOf hash L i _ _ hlen harea hgeo]
              exact Or.inr ⟨_, "street_jitter", rfl, rfl, rfl,
                Or.inl ⟨Or.inl rfl, h1.2, rfl⟩⟩
            | some g =>
              by_cases hpts : (Spread.interpolatePointsAlongGeometry g
                  (Spread.streetGroup L
                    (Spread.streetKey (L.getD i Spread.dummy))).length).length =
                  (Spread.streetGroup L (Spread.streetKey (L.getD i Spread.dummy))).length
              · rw [streetBranch_geom geomOf hash L i _ _ g hlen harea hgeo hpts]
                exact Or.inr ⟨_, "street_spread", rfl, rfl, rfl,
                  Or.inl ⟨Or.inr rfl, h1.2, rfl⟩⟩
              · rw [streetBranch_mismatch geomOf hash L i _ _ g hlen harea hgeo hpts]
                exact Or.inl rfl
        · rw [streetBranch_small geomOf hash L i _ _ hlen]
          exact Or.inl rfl
      · by_cases h2 : Spread.precStr (L.getD i Spread.dummy) = "district"
        · rw [spreadValue_eq_district geomOf hash L i la ln hla hln h1 h2]
          by_cases hlen : 2 ≤ (Spread.districtGroup L (L.getD i Spread.dummy).lat
              (L.getD i Spread.dummy).lng).length
          · rw [districtBranch_stack hash L _ la ln hlen]
            exact Or.inr ⟨_, "district_jitter", rfl, rfl, rfl, Or.inr ⟨rfl, Or.inl h2⟩⟩
          · rw [districtBranch_small hash L _ la ln hlen]
            exact Or.inl rfl
        · exact Or.inl (spreadValue_eq_skip geomOf hash L i la ln hla hln h1 h2)

/-- Helper: run_spread preserves id, street label and coordinate
presence at every position. -/
theorem spreadValue_fields (geomOf : String → ℝ × ℝ → Option Spread.StreetGeometry)
    (hash : String → ℕ) (L : List Spread.SListing) (i : ℕ) :
    (Spread.spreadValue geomOf hash L i).id = (L.getD i Spread.dummy).id ∧
    (Spread.spreadValue geomOf hash L i).street = (L.getD i Spread.dummy).street ∧
    (Spread.spreadValue geomOf hash L i).lat.isNone =
      (L.getD i Spread.dummy).lat.isNone ∧
    (Spread.spreadValue geomOf hash L i).lng.isNone =
      (L.getD i Spread.dummy).lng.isNone := by
  rcases spreadValue_out geomOf hash L i with h | ⟨p, pr, heq, hlaF, hlnF, _⟩
  · rw [h]
    exact ⟨rfl, rfl, rfl, rfl⟩
  · rw [heq, hlaF, hlnF]
    exact ⟨rfl, rfl, rfl, rfl⟩

/-- Helper: out-of-range positions read the same default in both lists. -/
theorem runSpread_getD_out (geomOf : String → ℝ × ℝ → Option Spread.StreetGeometry)
    (hash : String → ℕ) (L : List Spread.SListing) (j : ℕ) (hj : ¬ j < L.length) :
    (Spread.runSpread geomOf hash L).getD j Spread.dummy = L.getD j Spread.dummy := by
  rw [List.getD_eq_default _ _ (by rw [runSpread_length]; exact Nat.le_of_not_lt hj),
    List.getD_eq_default _ _ (Nat.le_of_not_lt hj)]

/-- Helper: the listing id at any position is unchanged by run_spread. -/
theorem idKey_runSpread (geomOf : String → ℝ × ℝ → Option Spread.StreetGeometry)
    (hash : String → ℕ) (L : List Spread.SListing) :
    Spread.idKey (Spread.runSpread geomOf hash L) = Spread.idKey L := by
  funext j
  unfold Spread.idKey
  by_cases hj : j < L.length
  · rw [runSpread_getD geomOf hash L j hj]
    exact (spreadValue_fields geomOf hash L j).1
  · rw [runSpread_getD_out geomOf hash L j hj]

/-- Helper: a coordinate update does not change the stripped street key. -/
theorem streetKey_upd (l : Spread.SListing) (a b : Option ℝ) (op : Option String) :
    Spread.streetKey { l with lat := a, lng := b, precision := op } =
      Spread.streetKey l := rfl

/-- Helper: the lowered precision of a tagged update is the lowered tag. -/
theorem precStr_upd (l : Spread.SListing) (a b : Option ℝ) (pr : String) :
    Spread.precStr { l with lat := a, lng := b, precision := some pr } =
      Str.lower pr := rfl

/-- Helper: street-group membership after run_spread implies membership
before it, for every group key. -/
theorem streetPredB_back (geomOf : String → ℝ × ℝ → Option Spread.StreetGeometry)
    (hash : String → ℕ) (L : List Spread.SListing) (s : String) (j : ℕ)
    (h : Spread.streetPredB (Spread.runSpread geomOf hash L) s j = true) :
    Spread.streetPredB L s j = true := by
  by_cases hj : j < L.length
  · rw [Spread.streetPredB] at h ⊢
    rw [runSpread_getD geomOf hash L j hj] at h
    simp only [Bool.and_eq_true, Bool.not_eq_true', decide_eq_true_eq] at h ⊢
    obtain ⟨⟨⟨h1, h2⟩, h3⟩, h4⟩ := h
    rcases spreadValue_out geomOf hash L j with he | ⟨p, pr, he, hlaF, hlnF, hside⟩
    · rw [he] at h1 h2 h3 h4
      exact ⟨⟨⟨h1, h2⟩, h3⟩, h4⟩
    · rw [he] at h3 h4
      rw [streetKey_upd] at h3
      rw [precStr_upd] at h4
      refine ⟨⟨⟨hlaF, hlnF⟩, h3⟩, ?_⟩
      rcases hside with ⟨hpr, hset, _⟩ | ⟨hpr, _⟩
      · exact hset
      · rw [hpr] at h4
        exact absurd h4 (by decide)
  · rw [Spread.streetPredB, runSpread_getD_out geomOf hash L j hj] at h
    exact h

/-- Helper: for a non-area street key, street-group membership is kept by
run_spread. -/
theorem streetPredB_fwd (geomOf : String → ℝ × ℝ → Option Spread.StreetGeometry)
    (hash : String → ℕ) (L : List Spread.SListing) (s : String)
    (hs : Spread.isAreaLike s = false) (j : ℕ)
    (h : Spread.streetPredB L s j = true) :
    Spread.streetPredB (Spread.runSpread geomOf hash L) s j = true := by
  by_cases hj : j < L.length
  · rw [Spread.streetPredB] at h ⊢
    rw [runSpread_getD geomOf hash L j hj]
    simp only [Bool.and_eq_true, Bool.not_eq_true', decide_eq_true_eq] at h ⊢
    obtain ⟨⟨⟨h1, h2⟩, h3⟩, h4⟩ := h
    rcases spreadValue_out geomOf hash L j with he | ⟨p, pr, he, hlaF, hlnF, hside⟩
    · rw [he]
      exact ⟨⟨⟨h1, h2⟩, h3⟩, h4⟩
    · rw [he]
      rw [streetKey_upd, precStr_upd]
      refine ⟨⟨⟨rfl, rfl⟩, h3⟩, ?_⟩
      rcases hside with ⟨hpr, _, _⟩ | ⟨hpr, hwhy⟩
      · rcases hpr with hpr | hpr <;> rw [hpr] <;> rfl
      · exfalso
        rcases hwhy with hd | ⟨harea, _⟩
        · rw [hd] at h4
          exact absurd h4 (by decide)
        · rw [h3] at harea
          rw [hs] at harea
          exact Bool.false_ne_true harea
  · rw [Spread.streetPredB, runSpread_getD_out geomOf hash L j hj]
    rw [Spread.streetPredB] at h
    exact h

/-- Helper: for a non-area street key, the street group is unchanged by
run_spread. -/
theorem streetGroup_stable (geomOf : String → ℝ × ℝ → Option Spread.StreetGeometry)
    (hash : String → ℕ) (L : List Spread.SListing) (s : String)
    (hs : Spread.isAreaLike s = false) :
    Spread.streetGroup (Spread.runSpread geomOf hash L) s = Spread.streetGroup L s := by
  unfold Spread.streetGroup
  rw [runSpread_length]
  apply List.filter_congr
  intro j _
  cases h1 : Spread.streetPredB L s j
  · cases h2 : Spread.streetPredB (Spread.runSpread geomOf hash L) s j
    · rfl
    · have := streetPredB_back geomOf hash L s j h2
      rw [h1] at this
      exact absurd this Bool.false_ne_true
  · rw [streetPredB_fwd geomOf hash L s hs j h1]

/-- Helper: a pointwise implication between filter predicates bounds the
filtered length. -/
theorem filter_length_mono {α : Type} (l : List α) (p q : α → Bool)
    (h : ∀ a ∈ l, p a = true → q a = true) :
    (l.filter p).length ≤ (l.filter q).length := by
  induction l with
  | nil => simp
  | cons a t ih =>
    have ht : ∀ b ∈ t, p b = true → q b = true := fun b hb => h b (List.mem_cons_of_mem a hb)
    rw [List.filter_cons, List.filter_cons]
    cases hp : p a
    · cases hq : q a
      · simpa using ih ht
      · rw [if_neg (by simp), if_pos (by simp)]
        exact le_trans (ih ht) (by simp [Nat.le_succ])
    · rw [if_pos (by simp), if_pos (by simp [h a (List.mem_cons_self a t) hp])]
      simpa using ih ht

/-- Helper: a street group never gains members across a run_spread pass. -/
theorem streetGroup_len (geomOf : String → ℝ × ℝ → Option Spread.StreetGeometry)
    (hash : String → ℕ) (L : List Spread.SListing) (s : String) :
    (Spread.streetGroup (Spread.runSpread geomOf hash L) s).length ≤
      (Spread.streetGroup L s).length := by
  unfold Spread.streetGroup
  rw [runSpread_length]
  exact filter_length_mono _ _ _ (fun j _ => streetPredB_back geomOf hash L s j)

/-- Helper: the precision of a jitter update is its tag. -/
theorem jitterUpd_precision (hash : String → ℕ) (c : ℝ × ℝ) (l : Spread.SListing)
    (r : ℝ) (pr : String) :
    (Spread.jitterUpd hash c l r pr).precision = some pr := rfl

/-- Helper: a listing carrying the district_jitter tag is skipped by
run_spread: it is in neither the street set nor the district precision. -/
theorem spreadValue_skip_tag (geomOf : String → ℝ × ℝ → Option Spread.StreetGeometry)
    (hash : String → ℕ) (M : List Spread.SListing) (i : ℕ)
    (hprec : (M.getD i Spread.dummy).precision = some "district_jitter") :
    Spread.spreadValue geomOf hash M i = M.getD i Spread.dummy := by
  have hps : Spread.precStr (M.getD i Spread.dummy) = "district_jitter" := by
    unfold Spread.precStr
    rw [hprec]
    rfl
  cases hla : (M.getD i Spread.dummy).lat with
  | none => exact spreadValue_eq_none geomOf hash M i (Or.inl hla)
  | some la =>
    cases hln : (M.getD i Spread.dummy).lng with
    | none => exact spreadValue_eq_none geomOf hash M i (Or.inr hln)
    | some ln =>
      apply spreadValue_eq_skip geomOf hash M i la ln hla hln
      · intro hcon
        rw [hps] at hcon
        exact absurd hcon.2 (by decide)
      · rw [hps]
        decide

/-- Helper: re-running run_spread fixes every position whose first-run
result is street_spread or district_jitter; in fact the second pass
recomputes the identical listing there, provided the street-geometry
lookup does not depend on the centroid argument (the same cached
geometry). -/
theorem spreadValue_again (geomOf : String → ℝ × ℝ → Option Spread.StreetGeometry)
    (hash : String → ℕ) (L : List Spread.SListing)
    (hg : ∀ s c cc, geomOf s c = geomOf s cc) (i : ℕ) (hi : i < L.length)
    (hp : (Spread.spreadValue geomOf hash L i).precision = some "street_spread" ∨
          (Spread.spreadValue geomOf hash L i).precision = some "district_jitter") :
    Spread.spreadValue geomOf hash (Spread.runSpread geomOf hash L) i =
      (Spread.runSpread geomOf hash L).getD i Spread.dummy := by
  have hl2 : (Spread.runSpread geomOf hash L).getD i Spread.dummy =
      Spread.spreadValue geomOf hash L i := runSpread_getD geomOf hash L i hi
  cases hla : (L.getD i Spread.dummy).lat with
  | none =>
    have he : Spread.spreadValue geomOf hash L i = L.getD i Spread.dummy :=
      spreadValue_eq_none geomOf hash L i (Or.inl hla)
    exact spreadValue_eq_none geomOf hash (Spread.runSpread geomOf hash L) i
      (Or.inl (by rw [hl2, he]; exact hla))
  | some la =>
    cases hln : (L.getD i Spread.dummy).lng with
    | none =>
      have he : Spread.spreadValue geomOf hash L i = L.getD i Spread.dummy :=
        spreadValue_eq_none geomOf hash L i (Or.inr hln)
      exact spreadValue_eq_none geomOf hash (Spread.runSpread geomOf hash L) i
        (Or.inr (by rw [hl2, he]; exact hln))
    | some ln =>
      by_cases h1 : Spread.streetKey (L.getD i Spread.dummy) ≠ "" ∧
          Spread.inStreetSetB (Spread.precStr (L.getD i Spread.dummy)) = true
      · have he0 := spreadValue_eq_street geomOf hash L i la ln hla hln h1
        by_cases hlen : 2 ≤
            (Spread.streetGroup L (Spread.streetKey (L.getD i Spread.dummy))).length
        · cases harea : Spread.isAreaLike (Spread.streetKey (L.getD i Spread.dummy)) with
          | true =>
            have he := he0.trans (streetBranch_area geomOf hash L i _ _ hlen harea)
            exact spreadValue_skip_tag geomOf hash (Spread.runSpread geomOf hash L) i
              (by rw [hl2, he, jitterUpd_precision])
          | false =>
            cases hgeo : geomOf (Spread.streetKey (L.getD i Spread.dummy))
                (Spread.refCenter L
                  (Spread.streetGroup L (Spread.streetKey (L.getD i Spread.dummy)))) with
            | none =>
              have he := he0.trans (streetBranch_nogeom geomOf hash L i _ _ hlen harea hgeo)
              exfalso
              rcases hp with hp | hp
              · rw [he, jitterUpd_precision] at hp
                exact absurd hp (by decide)
              · rw [he, jitterUpd_precision] at hp
                exact absurd hp (by decide)
            | some g =>
              by_cases hpts : (Spread.interpolatePointsAlongGeometry g
                  (Spread.streetGroup L
                    (Spread.streetKey (L.getD i Spread.dummy))).length).length =
                  (Spread.streetGroup L (Spread.streetKey (L.getD i Spread.dummy))).length
              · have he := he0.trans
                  (streetBranch_geom geomOf hash L i _ _ g hlen harea hgeo hpts)
                rw [spreadValue_eq_street geomOf hash (Spread.runSpread geomOf hash L) i
                  _ _ (by rw [hl2, he]) (by rw [hl2, he])
                  ⟨by rw [hl2, he, streetKey_upd]; exact h1.1,
                   by rw [hl2, he, precStr_upd]; rfl⟩]
                have hkeyM : Spread.streetKey
                    ((Spread.runSpread geomOf hash L).getD i Spread.dummy) =
                    Spread.streetKey (L.getD i Spread.dummy) := by
                  rw [hl2, he, streetKey_upd]
                rw [hkeyM]
                have hgrp := streetGroup_stable geomOf hash L
                  (Spread.streetKey (L.getD i Spread.dummy)) harea
                have hgeo2 : geomOf (Spread.streetKey (L.getD i Spread.dummy))
                    (Spread.refCenter (Spread.runSpread geomOf hash L)
                      (Spread.streetGroup (Spread.runSpread geomOf hash L)
                        (Spread.streetKey (L.getD i Spread.dummy)))) = some g := by
                  rw [hgrp]
                  exact (hg _ _ _).trans hgeo
                have hpts2 : (Spread.interpolatePointsAlongGeometry g
                    (Spread.streetGroup (Spread.runSpread geomOf hash L)
                      (Spread.streetKey (L.getD i Spread.dummy))).length).length =
                    (Spread.streetGroup (Spread.runSpread geomOf hash L)
                      (Spread.streetKey (L.getD i Spread.dummy))).length := by
                  rw [hgrp]
                  exact hpts
                rw [streetBranch_geom geomOf hash (Spread.runSpread geomOf hash L) i _ _ g
                  (by rw [hgrp]; exact hlen) harea hgeo2 hpts2]
                rw [hgrp, idKey_runSpread geomOf hash L, hl2, he]
              · have he := he0.trans
                  (streetBranch_mismatch geomOf hash L i _ _ g hlen harea hgeo hpts)
                rw [spreadValue_eq_street geomOf hash (Spread.runSpread geomOf hash L) i
                  la ln (by rw [hl2, he]; exact hla) (by rw [hl2, he]; exact hln)
                  (by rw [hl2, he]; exact h1)]
                have hkeyM : Spread.streetKey
                    ((Spread.runSpread geomOf hash L).getD i Spread.dummy) =
                    Spread.streetKey (L.getD i Spread.dummy) := by
                  rw [hl2, he]
                rw [hkeyM]
                have hgrp := streetGroup_stable geomOf hash L
                  (Spread.streetKey (L.getD i Spread.dummy)) harea
                have hgeo2 : geomOf (Spread.streetKey (L.getD i Spread.dummy))
                    (Spread.refCenter (Spread.runSpread geomOf hash L)
                      (Spread.streetGroup (Spread.runSpread geomOf hash L)
                        (Spread.streetKey (L.getD i Spread.dummy)))) = some g := by
                  rw [hgrp]
                  exact (hg _ _ _).trans hgeo
                have hpts2 : ¬ (Spread.interpolatePointsAlongGeometry g
                    (Spread.streetGroup (Spread.runSpread geomOf hash L)
                      (Spread.streetKey (L.getD i Spread.dummy))).length).length =
                    (Spread.streetGroup (Spread.runSpread geomOf hash L)
                      (Spread.streetKey (L.getD i Spread.dummy))).length := by
                  rw [hgrp]
                  exact hpts
                rw [streetBranch_mismatch geomOf hash (Spread.runSpread geomOf hash L) i
                  _ _ g (by rw [hgrp]; exact hlen) harea hgeo2 hpts2, hl2, he]
        · have he := he0.trans (streetBranch_small geomOf hash L i _ _ hlen)
          rw [spreadValue_eq_street geomOf hash (Spread.runSpread geomOf hash L) i
            la ln (by rw [hl2, he]; exact hla) (by rw [hl2, he]; exact hln)
            (by rw [hl2, he]; exact h1)]
          have hkeyM : Spread.streetKey
              ((Spread.runSpread geomOf hash L).getD i Spread.dummy) =
              Spread.streetKey (L.getD i Spread.dummy) := by
            rw [hl2, he]
          rw [hkeyM]
          have hlen2 : ¬ 2 ≤ (Spread.streetGroup (Spread.runSpread geomOf hash L)
              (Spread.streetKey (L.getD i Spread.dummy))).length := fun hc =>
            hlen (le_trans hc (streetGroup_len geomOf hash L _))
          rw [streetBranch_small geomOf hash (Spread.runSpread geomOf hash L) i _ _ hlen2,
            hl2, he]
      · by_cases h2 : Spread.precStr (L.getD i Spread.dummy) = "district"
        · have he0 := spreadValue_eq_district geomOf hash L i la ln hla hln h1 h2
          by_cases hdlen : 2 ≤ (Spread.districtGroup L (L.getD i Spread.dummy).lat
              (L.getD i Spread.dummy).lng).length
          · have he := he0.trans (districtBranch_stack hash L _ la ln hdlen)
            exact spreadValue_skip_tag geomOf hash (Spread.runSpread geomOf hash L) i
              (by rw [hl2, he, jitterUpd_precision])
          · have he := he0.trans (districtBranch_small hash L _ la ln hdlen)
            exfalso
            rcases hp with hp | hp
            · rw [he] at hp
              have hc : Spread.precStr (L.getD i Spread.dummy) = "street_spread" := by
                unfold Spread.precStr
                rw [hp]
                rfl
              rw [h2] at hc
              exact absurd hc (by decide)
            · rw [he] at hp
              have hc : Spread.precStr (L.getD i Spread.dummy) = "district_jitter" := by
                unfold Spread.precStr
                rw [hp]
                rfl
              rw [h2] at hc
              exact absurd hc (by decide)
        · have he := spreadValue_eq_skip geomOf hash L i la ln hla hln h1 h2
          rw [spreadValue_eq_skip geomOf hash (Spread.runSpread geomOf hash L) i la ln
            (by rw [hl2, he]; exact hla) (by rw [hl2, he]; exact hln)
            (by rw [hl2, he]; exact h1) (by rw [hl2, he]; exact h2), hl2, he]

/-- C5: run_spread is idempotent for already-spread listings. Re-running
it on its own output with the same listing set and a street-geometry
lookup that does not depend on the centroid (the same cached geometry)
leaves the lat and lng of every listing whose precision came out as
street_spread or district_jitter unchanged: district_jitter listings
match neither grouping predicate again, and street_spread listings are
re-assigned the identical interpolated point because their street group,
id order and geometry re-derive unchanged. -/
theorem c5_run_spread (geomOf : String → ℝ × ℝ → Option Spread.StreetGeometry)
    (hash : String → ℕ) (L : List Spread.SListing)
    (hg : ∀ s c cc, geomOf s c = geomOf s cc) (i : ℕ) (hi : i < L.length)
    (hp : ((Spread.runSpread geomOf hash L).getD i Spread.dummy).precision =
        some "street_spread" ∨
      ((Spread.runSpread geomOf hash L).getD i Spread.dummy).precision =
        some "district_jitter") :
    ((Spread.runSpread geomOf hash (Spread.runSpread geomOf hash L)).getD i
        Spread.dummy).lat =
      ((Spread.runSpread geomOf hash L).getD i Spread.dummy).lat ∧
    ((Spread.runSpread geomOf hash (Spread.runSpread geomOf hash L)).getD i
        Spread.dummy).lng =
      ((Spread.runSpread geomOf hash L).getD i Spread.dummy).lng := by
  have hi2 : i < (Spread.runSpread geomOf hash L).length := by
    rw [runSpread_length]
    exact hi
  have hp2 := hp
  rw [runSpread_getD geomOf hash L i hi] at hp2
  have h := spreadValue_again geomOf hash L hg i hi hp2
  rw [runSpread_getD geomOf hash (Spread.runSpread geomOf hash L) i hi2, h]
  exact ⟨rfl, rfl⟩

/-- C5 witness: the idempotence theorem applied to a concrete two-listing
area-like street stack; the first pass tags both listings district_jitter
and the second pass provably leaves their coordinates alone. -/
theorem c5_witness :
    ((Spread.runSpread (fun _ _ => none) (fun _ => 0)
        (Spread.runSpread (fun _ _ => none) (fun _ => 0) Spread.wListings)).getD 0
          Spread.dummy).lat =
      ((Spread.runSpread (fun _ _ => none) (fun _ => 0) Spread.wListings).getD 0
          Spread.dummy).lat ∧
    ((Spread.runSpread (fun _ _ => none) (fun _ => 0)
        (Spread.runSpread (fun _ _ => none) (fun _ => 0) Spread.wListings)).getD 0
          Spread.dummy).lng =
      ((Spread.runSpread (fun _ _ => none) (fun _ => 0) Spread.wListings).getD 0
          Spread.dummy).lng :=
  c5_run_spread (fun _ _ => none) (fun _ => 0) Spread.wListings
    (fun s c cc => rfl) 0 (by decide) (Or.inr rfl)
